import Mathlib

/-!
Verification development for the kilo-cloud tool (`src/tool/kilo-cloud.ts`).

The tool is a registry-driven RPC dispatcher: a static table of tRPC and REST
endpoint descriptors is turned into a map from procedure keys to callable
procedures, and a single `execute` entry point looks up a key, parses a JSON
parameter string, performs one HTTP request and renders the outcome.

The embedding below models:
  - JSON values (`Json`), with the host runtime's `JSON.parse` and
    `JSON.stringify` (compact and with indent 2) modelled as executable
    functions on `Json`.  Numbers are modelled as integers; machine floats
    are outside the model.
  - JavaScript value coercions used by the code (truthiness, `String(...)`
    conversion, property access, object rest-spread).
  - the two procedure factories `createTrpcProcedure` and
    `createRestProcedure`, the registry data, the `procedures` map and the
    dispatcher `execute`.  HTTP is an explicit oracle
    `Request → Except JsError (Nat × String)`; `new Error(...)` stack
    generation and the engine's JSON syntax-error messages are supplied by
    an environment `JsEnv`.
-/

namespace KiloCloud

/-- HTTP methods supported by the endpoint tables. -/
inductive HttpMethod where
  | GET
  | POST
  | PUT
  | DELETE
deriving DecidableEq

/-- JSON values.  Object fields are an ordered association list, mirroring
JavaScript object key insertion order.  Numbers are modelled as integers. -/
inductive Json where
  | null
  | bool (b : Bool)
  | num (n : Int)
  | str (s : String)
  | arr (xs : List Json)
  | obj (fields : List (String × Json))

/-- Opening brace character. -/
def lbrace : Char := Char.ofNat 123

/-- Closing brace character. -/
def rbrace : Char := Char.ofNat 125

/-- Decimal digit character for a value below ten. -/
def digitChar (n : Nat) : Char := Char.ofNat (48 + n)

/-- Decimal digit characters of a natural number, most significant first. -/
def natChars (n : Nat) : List Char :=
  if _h : n < 10 then [digitChar n]
  else natChars (n / 10) ++ [digitChar (n % 10)]
termination_by n
decreasing_by
  exact Nat.div_lt_self (by omega) (by omega)

/-- Decimal digit characters of an integer, with a leading minus sign when
negative. -/
def intChars (i : Int) : List Char :=
  if i < 0 then '-' :: natChars (-i).toNat else natChars i.toNat

/-- Render a natural number in decimal. -/
def natToStr (n : Nat) : String := String.mk (natChars n)

/-- Render an integer in decimal. -/
def intToStr (i : Int) : String := String.mk (intChars i)

/-- Lower-case hexadecimal digit character for a value below sixteen. -/
def hexDigitChar (n : Nat) : Char :=
  if n < 10 then Char.ofNat (48 + n) else Char.ofNat (87 + n)

/-- Four-digit lower-case hexadecimal rendering, as in a JSON \u escape. -/
def hex4 (n : Nat) : List Char :=
  [hexDigitChar (n / 4096 % 16), hexDigitChar (n / 256 % 16),
   hexDigitChar (n / 16 % 16), hexDigitChar (n % 16)]

/-- Numeric value of a hexadecimal digit character, if it is one. -/
def hexVal (c : Char) : Option Nat :=
  if 48 ≤ c.toNat ∧ c.toNat ≤ 57 then some (c.toNat - 48)
  else if 97 ≤ c.toNat ∧ c.toNat ≤ 102 then some (c.toNat - 87)
  else if 65 ≤ c.toNat ∧ c.toNat ≤ 70 then some (c.toNat - 55)
  else none

/-- JSON string escaping of a single character, as produced by
JavaScript's JSON.stringify. -/
def escChar (c : Char) : List Char :=
  if c = '"' then ['\\', '"']
  else if c = '\\' then ['\\', '\\']
  else if c = Char.ofNat 8 then ['\\', 'b']
  else if c = '\t' then ['\\', 't']
  else if c = '\n' then ['\\', 'n']
  else if c = Char.ofNat 12 then ['\\', 'f']
  else if c = '\r' then ['\\', 'r']
  else if c.toNat < 32 then '\\' :: 'u' :: hex4 c.toNat
  else [c]

/-- JSON string escaping of a character sequence. -/
def escList : List Char → List Char
  | [] => []
  | c :: cs => escChar c ++ escList cs

/-- JSON string literal (quotes and escaping) for a string. -/
def strLit (s : String) : List Char := '"' :: escList s.data ++ ['"']

mutual

/-- Compact JSON rendering, as JavaScript's JSON.stringify with no
indent argument. -/
def ppc : Json → List Char
  | .null => ['n', 'u', 'l', 'l']
  | .bool b => if b then ['t', 'r', 'u', 'e'] else ['f', 'a', 'l', 's', 'e']
  | .num i => intChars i
  | .str s => strLit s
  | .arr [] => ['[', ']']
  | .arr (x :: xs) => '[' :: (ppcElems (x :: xs) ++ [']'])
  | .obj [] => [lbrace, rbrace]
  | .obj (f :: fs) => lbrace :: (ppcFields (f :: fs) ++ [rbrace])

/-- Compact rendering of an array's elements, comma separated. -/
def ppcElems : List Json → List Char
  | [] => []
  | [x] => ppc x
  | x :: y :: ys => ppc x ++ ',' :: ppcElems (y :: ys)

/-- Compact rendering of an object's fields, comma separated. -/
def ppcFields : List (String × Json) → List Char
  | [] => []
  | [(k, v)] => strLit k ++ ':' :: ppc v
  | (k, v) :: f :: fs => strLit k ++ ':' :: ppc v ++ ',' :: ppcFields (f :: fs)

end

/-- Indentation for the given nesting level at two spaces per level. -/
def pad (lvl : Nat) : List Char := List.replicate (2 * lvl) ' '

mutual

/-- Pretty JSON rendering at the given nesting level, as JavaScript's
JSON.stringify with indent 2. -/
def ppp : Nat → Json → List Char
  | _, .null => ['n', 'u', 'l', 'l']
  | _, .bool b => if b then ['t', 'r', 'u', 'e'] else ['f', 'a', 'l', 's', 'e']
  | _, .num i => intChars i
  | _, .str s => strLit s
  | _, .arr [] => ['[', ']']
  | lvl, .arr (x :: xs) =>
      '[' :: '\n' :: (pppElems (lvl + 1) (x :: xs) ++ '\n' :: (pad lvl ++ [']']))
  | _, .obj [] => [lbrace, rbrace]
  | lvl, .obj (f :: fs) =>
      lbrace :: '\n' :: (pppFields (lvl + 1) (f :: fs) ++ '\n' :: (pad lvl ++ [rbrace]))

/-- Pretty rendering of an array's elements, one per line. -/
def pppElems : Nat → List Json → List Char
  | _, [] => []
  | lvl, [x] => pad lvl ++ ppp lvl x
  | lvl, x :: y :: ys => pad lvl ++ ppp lvl x ++ ',' :: '\n' :: pppElems lvl (y :: ys)

/-- Pretty rendering of an object's fields, one per line. -/
def pppFields : Nat → List (String × Json) → List Char
  | _, [] => []
  | lvl, [(k, v)] => pad lvl ++ strLit k ++ ':' :: ' ' :: ppp lvl v
  | lvl, (k, v) :: f :: fs =>
      pad lvl ++ strLit k ++ ':' :: ' ' :: ppp lvl v ++ ',' :: '\n' :: pppFields lvl (f :: fs)

end

/-- Model of JavaScript JSON.stringify(v). -/
def stringifyCompact (v : Json) : String := String.mk (ppc v)

/-- Model of JavaScript JSON.stringify(v, null, 2). -/
def stringifyPretty (v : Json) : String := String.mk (ppp 0 v)

/-- JSON insignificant whitespace characters. -/
def isWsChar (c : Char) : Bool :=
  c = ' ' || c = '\n' || c = '\t' || c = '\r'

/-- Drop leading JSON whitespace. -/
def skipWs (cs : List Char) : List Char := cs.dropWhile isWsChar

/-- Numeric value of a four-hex-digit escape, if all four are hex digits. -/
def hex4Val (a b c d : Char) : Option Nat :=
  match hexVal a, hexVal b, hexVal c, hexVal d with
  | some va, some vb, some vc, some vd => some (((va * 16 + vb) * 16 + vc) * 16 + vd)
  | _, _, _, _ => none

/-- Decoding of a single-character JSON escape, as accepted by
JavaScript's JSON.parse. -/
def escDecode (e : Char) : Option Char :=
  if e = '"' then some '"'
  else if e = '\\' then some '\\'
  else if e = '/' then some '/'
  else if e = 'b' then some (Char.ofNat 8)
  else if e = 'f' then some (Char.ofNat 12)
  else if e = 'n' then some '\n'
  else if e = 'r' then some '\r'
  else if e = 't' then some '\t'
  else none

/-- Parse the body of a JSON string literal after the opening quote,
returning the decoded characters and the input remaining after the closing
quote.  Raw control characters and unknown escapes are rejected, as by
JavaScript's JSON.parse. -/
def parseStrChars : List Char → Option (List Char × List Char)
  | [] => none
  | '"' :: rest => some ([], rest)
  | '\\' :: 'u' :: a :: b :: c :: d :: rest =>
    match hex4Val a b c d with
    | some n =>
      match parseStrChars rest with
      | some (s, r) => some (Char.ofNat n :: s, r)
      | none => none
    | none => none
  | '\\' :: e :: rest =>
    match escDecode e with
    | some c' =>
      match parseStrChars rest with
      | some (s, r) => some (c' :: s, r)
      | none => none
    | none => none
  | c :: rest =>
    if c.toNat < 32 then none
    else
      match parseStrChars rest with
      | some (s, r) => some (c :: s, r)
      | none => none

/-- Leading decimal digits of the input and the rest. -/
def digitsSpan (cs : List Char) : List Char × List Char :=
  (cs.takeWhile Char.isDigit, cs.dropWhile Char.isDigit)

/-- Numeric value of a list of decimal digit characters. -/
def digitsVal (ds : List Char) : Nat :=
  ds.foldl (fun a c => a * 10 + (c.toNat - 48)) 0

/-- Replace the value at an existing key, keeping its position, or append a
new field, as JavaScript sequential property assignment does. -/
def upsert : List (String × Json) → String → Json → List (String × Json)
  | [], k, v => [(k, v)]
  | (k', v') :: t, k, v =>
    if k' = k then (k', v) :: t else (k', v') :: upsert t k v

mutual

/-- Parse one JSON value (fuel-indexed).  Mirrors JavaScript's JSON.parse
grammar restricted to integer numerals; fraction and exponent parts are
outside the model. -/
def parseVal : Nat → List Char → Option (Json × List Char)
  | 0, _ => none
  | f + 1, cs =>
    match skipWs cs with
    | [] => none
    | c :: rest =>
      if c = lbrace then parseFields f true [] rest
      else if c = '[' then
        match parseElems f true rest with
        | some (vs, r) => some (.arr vs, r)
        | none => none
      else if c = '"' then
        match parseStrChars rest with
        | some (s, r) => some (.str (String.mk s), r)
        | none => none
      else if c = 'n' then
        match rest with
        | 'u' :: 'l' :: 'l' :: r => some (.null, r)
        | _ => none
      else if c = 't' then
        match rest with
        | 'r' :: 'u' :: 'e' :: r => some (.bool true, r)
        | _ => none
      else if c = 'f' then
        match rest with
        | 'a' :: 'l' :: 's' :: 'e' :: r => some (.bool false, r)
        | _ => none
      else if c = '-' then
        match digitsSpan rest with
        | ([], _) => none
        | (ds, r) => some (.num (-(Int.ofNat (digitsVal ds))), r)
      else if c.isDigit then
        match digitsSpan (c :: rest) with
        | (ds, r) => some (.num (Int.ofNat (digitsVal ds)), r)
      else none

/-- Parse array elements after the opening bracket (fuel-indexed).  The
flag records whether a closing bracket may come next, which is so at the
start of the array but not after a comma. -/
def parseElems : Nat → Bool → List Char → Option (List Json × List Char)
  | 0, _, _ => none
  | f + 1, allowEmpty, cs =>
    match skipWs cs with
    | [] => none
    | c :: rest =>
      if c = ']' then
        if allowEmpty then some ([], rest) else none
      else
        match parseVal f (c :: rest) with
        | none => none
        | some (v, r) =>
          match skipWs r with
          | [] => none
          | c2 :: r2 =>
            if c2 = ',' then
              match parseElems f false r2 with
              | some (vs, r3) => some (v :: vs, r3)
              | none => none
            else if c2 = ']' then some ([v], r2)
            else none

/-- Parse object fields after the opening brace (fuel-indexed), assigning
fields left to right into the accumulator as JavaScript does. -/
def parseFields : Nat → Bool → List (String × Json) → List Char →
    Option (Json × List Char)
  | 0, _, _, _ => none
  | f + 1, allowEmpty, acc, cs =>
    match skipWs cs with
    | [] => none
    | c :: rest =>
      if c = rbrace then
        if allowEmpty then some (.obj acc, rest) else none
      else if c = '"' then
        match parseStrChars rest with
        | none => none
        | some (kcs, r) =>
          match skipWs r with
          | [] => none
          | c2 :: r2 =>
            if c2 = ':' then
              match parseVal f r2 with
              | none => none
              | some (v, r3) =>
                match skipWs r3 with
                | [] => none
                | c3 :: r4 =>
                  if c3 = ',' then
                    parseFields f false (upsert acc (String.mk kcs) v) r4
                  else if c3 = rbrace then
                    some (.obj (upsert acc (String.mk kcs) v), r4)
                  else none
            else none
      else none

end

/-- Model of JavaScript JSON.parse: parse one value and require the rest of
the input to be whitespace. -/
def jsonParse (s : String) : Option Json :=
  match parseVal (s.data.length + 1) s.data with
  | some (v, rest) => if skipWs rest = [] then some v else none
  | none => none

/-- JavaScript truthiness of a JSON value. -/
def jsTruthy : Json → Bool
  | .null => false
  | .bool b => b
  | .num n => n != 0
  | .str s => s != ""
  | .arr _ => true
  | .obj _ => true

/-- JavaScript truthiness where `none` stands for `undefined`. -/
def jsTruthyOpt : Option Json → Bool
  | some v => jsTruthy v
  | none => false

/-- JavaScript property access `v[k]`: a field lookup on objects, absent
(`undefined`) on every other JSON value. -/
def jsGet (v : Json) (k : String) : Option Json :=
  match v with
  | .obj fs => fs.lookup k
  | _ => none

/-- Whether a JSON value is `null`. -/
def isNullJson : Json → Bool
  | .null => true
  | _ => false

mutual

/-- JavaScript `String(v)` conversion of a JSON value. -/
def jsToString : Json → String
  | .null => "null"
  | .bool true => "true"
  | .bool false => "false"
  | .num n => intToStr n
  | .str s => s
  | .arr xs => jsArrJoin xs
  | .obj _ => "[object Object]"

/-- JavaScript array-to-string conversion: elements joined by commas with
`null` elements rendered empty. -/
def jsArrJoin : List Json → String
  | [] => ""
  | [x] => if isNullJson x then "" else jsToString x
  | x :: y :: ys =>
      (if isNullJson x then "" else jsToString x) ++ "," ++ jsArrJoin (y :: ys)

end

/-- JavaScript string conversion where `none` stands for `undefined`, as in
a template literal interpolation. -/
def jsToStringU : Option Json → String
  | some v => jsToString v
  | none => "undefined"

/-- Model of the destructuring `const (returnRaw, ...apiParams) = params or
empty object`: falsy values give the empty object, objects lose their
`returnRaw` key, strings and arrays spread to index properties, other
primitives give the empty object. -/
def omitReturnRaw (params : Json) : Json :=
  match params with
  | .obj fs => .obj (fs.filter (fun p => p.1 != "returnRaw"))
  | .str s => .obj (s.data.enum.map (fun p => (natToStr p.1, .str (String.mk [p.2]))))
  | .arr xs => .obj (xs.enum.map (fun p => (natToStr p.1, p.2)))
  | _ => .obj []

/-- The `returnRaw` property extracted by the same destructuring. -/
def getReturnRaw (params : Json) : Option Json :=
  match params with
  | .obj fs => fs.lookup "returnRaw"
  | _ => none

/-- Characters left unescaped by JavaScript's encodeURIComponent. -/
def uriUnreserved (c : Char) : Bool :=
  c.isAlphanum || c = '-' || c = '_' || c = '.' || c = '!' || c = '~' ||
  c = '*' || c = '\'' || c = '(' || c = ')'

/-- UTF-8 bytes of a character. -/
def utf8Bytes (c : Char) : List Nat :=
  let n := c.toNat
  if n < 128 then [n]
  else if n < 2048 then [192 + n / 64, 128 + n % 64]
  else if n < 65536 then [224 + n / 4096, 128 + n / 64 % 64, 128 + n % 64]
  else [240 + n / 262144, 128 + n / 4096 % 64, 128 + n / 64 % 64, 128 + n % 64]

/-- Upper-case hexadecimal digit character for a value below sixteen. -/
def hexUpperChar (n : Nat) : Char :=
  if n < 10 then Char.ofNat (48 + n) else Char.ofNat (55 + n)

/-- Percent-encoding of one byte, upper-case hex. -/
def pctByte (b : Nat) : List Char := ['%', hexUpperChar (b / 16), hexUpperChar (b % 16)]

/-- Model of JavaScript's encodeURIComponent. -/
def encodeURIComponent (s : String) : String :=
  String.mk (s.data.foldr
    (fun c acc =>
      (if uriUnreserved c then [c] else (utf8Bytes c).foldr (fun b a => pctByte b ++ a) []) ++ acc)
    [])

/-- Characters left unescaped by the urlencoded serializer used by
URLSearchParams. -/
def formSafe (c : Char) : Bool :=
  c.isAlphanum || c = '*' || c = '-' || c = '.' || c = '_'

/-- One component of an application/x-www-form-urlencoded rendering:
safe characters kept, space as plus, the rest percent-encoded. -/
def formEncode (s : String) : List Char :=
  s.data.foldr
    (fun c acc =>
      (if formSafe c then [c]
       else if c = ' ' then ['+']
       else (utf8Bytes c).foldr (fun b a => pctByte b ++ a) []) ++ acc)
    []

/-- Model of URLSearchParams(pairs).toString(). -/
def urlSearchParams : List (String × String) → String
  | [] => ""
  | [(k, v)] => String.mk (formEncode k ++ '=' :: formEncode v)
  | (k, v) :: p :: ps =>
      String.mk (formEncode k ++ '=' :: formEncode v) ++ "&" ++ urlSearchParams (p :: ps)

/-- Expansion of dollar patterns in the replacement string of JavaScript's
String.prototype.replace: dollar-dollar, dollar-ampersand (the match),
dollar-backquote (the part before) and dollar-quote (the part after). -/
def expandRepl : List Char → List Char → List Char → List Char → List Char
  | [], _, _, _ => []
  | '$' :: d :: rest, m, pre, post =>
    if d = '$' then '$' :: expandRepl rest m pre post
    else if d = '&' then m ++ expandRepl rest m pre post
    else if d = Char.ofNat 96 then pre ++ expandRepl rest m pre post
    else if d = '\'' then post ++ expandRepl rest m pre post
    else '$' :: d :: expandRepl rest m pre post
  | c :: rest, m, pre, post => c :: expandRepl rest m pre post

/-- Split around the first occurrence of a pattern, if any. -/
def splitFirst (s pat : List Char) : Option (List Char × List Char) :=
  if pat.isPrefixOf s then some ([], s.drop pat.length)
  else
    match s with
    | [] => none
    | c :: rest =>
      match splitFirst rest pat with
      | some (pre, post) => some (c :: pre, post)
      | none => none

/-- Model of JavaScript s.replace(pat, rep) with a plain-string pattern:
replace the first occurrence only, expanding dollar patterns in the
replacement. -/
def replaceFirst (s pat rep : String) : String :=
  match splitFirst s.data pat.data with
  | some (pre, post) => String.mk (pre ++ expandRepl rep.data pat.data pre post ++ post)
  | none => s

/-- Word characters of the regex character class backslash-w. -/
def isWordChar (c : Char) : Bool := c.isAlphanum || c = '_'

/-- Scanner equivalent to globally matching the path-parameter regex
(bracket, one or more word characters, bracket) left to right: the state
holds the word characters read since the last unclosed opening bracket. -/
def pathParamScan : List Char → Option (List Char) → List String
  | [], _ => []
  | c :: rest, none =>
    if c = '[' then pathParamScan rest (some []) else pathParamScan rest none
  | c :: rest, some acc =>
    if c = '[' then pathParamScan rest (some [])
    else if c = ']' then
      if acc.isEmpty then pathParamScan rest none
      else String.mk acc.reverse :: pathParamScan rest none
    else if isWordChar c then pathParamScan rest (some (c :: acc))
    else pathParamScan rest none

/-- Names of the bracketed path parameters of a path template. -/
def pathParams (path : String) : List String := pathParamScan path.data none

/-- Fixed base URL of the cloud API. -/
def baseUrl : String := "https://app.kilo.ai/api"

/-- A thrown JavaScript Error: a message plus the runtime-generated stack. -/
structure JsError where
  message : String
  stack : String

/-- Host-environment parameters: how the runtime derives an Error's stack
from its message, and the engine's JSON.parse syntax-error message for a
given invalid input. -/
structure JsEnv where
  stackOf : String → String
  parseErrMsg : String → String

/-- Model of constructing a new Error with the given message. -/
def mkError (env : JsEnv) (msg : String) : JsError := ⟨msg, env.stackOf msg⟩

/-- One outbound HTTP request: URL, method and optional body.  The constant
authorization and content-type headers carry no information and are not
modelled. -/
structure Request where
  url : String
  method : HttpMethod
  body : Option String

/-- The raw-passthrough wrapper built around an unparsed response body. -/
def rawWrapper (text : String) (status : Nat) : Json :=
  .obj [("_raw", .bool true), ("content", .str text), ("status", .num (Int.ofNat status))]

/-- First 500 characters of a string, as substring(0, 500). -/
def first500 (s : String) : String := String.mk (s.data.take 500)

/-- Error message built when a tRPC response body fails to parse as JSON. -/
def trpcParseFailMsg (ns name url : String) (status : Nat) (errMsg text : String) : String :=
  "Failed to parse JSON response. Procedure: " ++ ns ++ "." ++ name ++
  ", URL: " ++ url ++ ", Status: " ++ natToStr status ++ ", Error: " ++ errMsg ++
  ", Response body (first 500 chars): " ++ first500 text

/-- The single request built by a tRPC procedure: for GET the parameters go
JSON-encoded into the input query parameter, otherwise they form the JSON
body.  Note the trpc path segment between the base URL and the
namespace-dot-name procedure id. -/
def trpcRequest (ns name : String) (method : HttpMethod) (apiParams : Json) : Request :=
  if method = .GET then
    ⟨baseUrl ++ "/trpc/" ++ ns ++ "." ++ name ++ "?input=" ++
      encodeURIComponent (stringifyCompact apiParams), method, none⟩
  else
    ⟨baseUrl ++ "/trpc/" ++ ns ++ "." ++ name, method, some (stringifyCompact apiParams)⟩

/-- Execution function built by createTrpcProcedure.  The whole body runs
inside a try/catch whose handler rethrows a new Error naming the
procedure. -/
def trpcExecute (ns name : String) (method : HttpMethod) (env : JsEnv)
    (fetch : Request → Except JsError (Nat × String)) (params : Json)
    (returnRaw : Bool) : Except JsError Json :=
  let inner : Except JsError Json :=
    let apiParams := omitReturnRaw params
    let shouldReturnRaw := returnRaw || jsTruthyOpt (getReturnRaw params)
    let req := trpcRequest ns name method apiParams
    match fetch req with
    | .error e => .error e
    | .ok (status, text) =>
      if shouldReturnRaw then .ok (rawWrapper text status)
      else
        match jsonParse text with
        | some v => .ok v
        | none => .error (mkError env
            (trpcParseFailMsg ns name req.url status (env.parseErrMsg text) text))
  match inner with
  | .ok v => .ok v
  | .error e => .error (mkError env
      ("tRPC execute error for procedure \"" ++ ns ++ "." ++ name ++ "\": " ++ e.message))

/-- Error message built when a REST response body fails to parse as JSON. -/
def restParseFailMsg (path url : String) (status : Nat) (errMsg text : String) : String :=
  "Failed to parse JSON response. Endpoint: " ++ path ++
  ", URL: " ++ url ++ ", Status: " ++ natToStr status ++ ", Error: " ++ errMsg ++
  ", Response body (first 500 chars): " ++ first500 text

/-- Path-parameter substitution: for each parameter entry in order, replace
the first occurrence of its bracketed key in the path by the JavaScript
string conversion of its value.  The guard on apiParams being an object is
always true after the rest-spread, which yields an object. -/
def restPathSubst (path : String) (apiParams : Json) : String :=
  match apiParams with
  | .obj fs =>
      fs.foldl (fun p kv => replaceFirst p ("[" ++ kv.1 ++ "]") (jsToString kv.2)) path
  | _ => path

/-- Query pairs for a REST GET: the parameters minus the path-parameter
keys of the original template, values converted by String(...). -/
def restQueryPairs (path : String) (apiParams : Json) : List (String × String) :=
  match apiParams with
  | .obj fs =>
      (fs.filter (fun kv => !(pathParams path).contains kv.1)).map
        (fun kv => (kv.1, jsToString kv.2))
  | _ => []

/-- Body object for a mutating REST call: the parameters minus the
path-parameter keys of the original template. -/
def restBodyParams (path : String) (apiParams : Json) : Json :=
  match apiParams with
  | .obj fs => .obj (fs.filter (fun kv => !(pathParams path).contains kv.1))
  | v => v

/-- The single request built by a REST procedure. -/
def restRequest (path : String) (method : HttpMethod) (apiParams : Json) : Request :=
  let finalPath := restPathSubst path apiParams
  if method = .GET then
    let qp := restQueryPairs path apiParams
    let queryString := if qp.length > 0 then "?" ++ urlSearchParams qp else ""
    ⟨baseUrl ++ finalPath ++ queryString, method, none⟩
  else
    ⟨baseUrl ++ finalPath, method, some (stringifyCompact (restBodyParams path apiParams))⟩

/-- Execution function built by createRestProcedure.  The whole body runs
inside a try/catch whose handler rethrows a new Error naming the
endpoint. -/
def restExecute (path : String) (method : HttpMethod) (isRawEndpoint : Bool)
    (env : JsEnv) (fetch : Request → Except JsError (Nat × String))
    (params : Json) : Except JsError Json :=
  let inner : Except JsError Json :=
    let apiParams := omitReturnRaw params
    let shouldReturnRaw := isRawEndpoint || jsTruthyOpt (getReturnRaw params)
    let req := restRequest path method apiParams
    match fetch req with
    | .error e => .error e
    | .ok (status, text) =>
      if shouldReturnRaw then .ok (rawWrapper text status)
      else
        match jsonParse text with
        | some v => .ok v
        | none => .error (mkError env
            (restParseFailMsg path req.url status (env.parseErrMsg text) text))
  match inner with
  | .ok v => .ok v
  | .error e => .error (mkError env
      ("REST execute error for endpoint \"" ++ path ++ "\": " ++ e.message))

/-- A procedure derived from one endpoint descriptor. -/
structure Procedure where
  type : String
  method : HttpMethod
  path : String
  description : String
  raw : Bool := false
  execute : JsEnv → (Request → Except JsError (Nat × String)) → Json →
    Except JsError Json

/-- Description suffix for an optional parameter-documentation string,
empty when the string is absent or empty (falsy). -/
def paramSuffix : Option String → String
  | some p => if p = "" then "" else " Parameters: " ++ p
  | none => ""

/-- Factory for tRPC procedure executors. -/
def createTrpcProcedure (ns name : String) (method : HttpMethod)
    (description : String) (paramSchema : Option String) : Procedure :=
  { type := "trpc"
    method := method
    path := "/" ++ ns ++ "." ++ name
    description := description ++ paramSuffix paramSchema
    execute := fun env fetch params => trpcExecute ns name method env fetch params false }

/-- Factory for REST procedure executors; the raw flag is captured in the
closure and compared strictly against true. -/
def createRestProcedure (path : String) (method : HttpMethod)
    (description : String) (paramSchema : Option String) (raw : Option Bool) : Procedure :=
  let isRawEndpoint : Bool := raw = some true
  { type := "rest"
    method := method
    path := path
    description := description ++ paramSuffix paramSchema
    raw := isRawEndpoint
    execute := fun env fetch params => restExecute path method isRawEndpoint env fetch params }

/-- One entry of the endpoint tables. -/
structure EndpointConfig where
  name : String
  method : HttpMethod
  description : String
  params : Option String := none
  raw : Option Bool := none

def trpcEndpoints : List (String × List EndpointConfig) := [
  ("user", [
    ⟨"getAuthProviders", .GET, "Get user auth providers.", none, none⟩,
    ⟨"getCreditBlocks", .GET, "Get user credit blocks.", none, none⟩,
    ⟨"getAutocompleteMetrics", .GET, "Get autocomplete metrics.", some "viewType? (personal|all)", none⟩,
    ⟨"getAutoTopUpPaymentMethod", .GET, "Get auto top-up payment method.", none, none⟩
  ]),
  ("webhookTriggers", [
    ⟨"list", .GET, "List all webhook triggers.", some "organizationId?", none⟩,
    ⟨"get", .GET, "Get webhook trigger details.", some "triggerId, organizationId?", none⟩,
    ⟨"create", .POST, "Create webhook trigger.", some "triggerId, organizationId?, githubRepo, mode (architect|code|ask|debug|orchestrator), model (e.g. minimax/minimax-m2.1:free), promptTemplate, profileId (fetch from agentProfiles.list first), autoCommit?, condenseOnComplete?, webhookAuth? (\x7b\"x-header\":\"secret\"\x7d)", none⟩,
    ⟨"update", .POST, "Update webhook trigger.", some "triggerId, organizationId?, mode (architect|code|ask|debug|orchestrator), model (e.g. minimax/minimax-m2.1:free), promptTemplate, profileId (fetch from agentProfiles.list first), autoCommit?, condenseOnComplete?, isActive?, webhookAuth? (\x7b\"x-header\":\"secret\"\x7d)", none⟩,
    ⟨"delete", .POST, "Delete webhook trigger.", some "triggerId, organizationId?", none⟩,
    ⟨"listRequests", .GET, "List webhook requests.", some "triggerId, organizationId?, limit? (1-100)", none⟩
  ]),
  ("organizations", [
    ⟨"list", .GET, "List all organizations.", none, none⟩
  ]),
  ("cloudAgent", [
    ⟨"getSession", .GET, "Get session details.", some "cloudAgentSessionId", none⟩,
    ⟨"checkEligibility", .GET, "Check CloudAgent eligibility.", none, none⟩,
    ⟨"listGitHubRepositories", .GET, "List GitHub repositories.", some "forceRefresh?", none⟩,
    ⟨"listGitLabRepositories", .GET, "List GitLab repositories.", some "forceRefresh?", none⟩,
    ⟨"checkDemoRepositoryFork", .GET, "Check demo repository fork status.", none, none⟩,
    ⟨"prepareSession", .POST, "Prepare session. Returns kiloSessionId (UUID) and cloudAgentSessionId (agent_...).", some "prompt, mode (architect|code|ask|debug|orchestrator), model, githubRepo OR gitlabProject (mutually exclusive), profileName?, envVars?, setupCommands?, mcpServers?, upstreamBranch?, autoCommit?", none⟩,
    ⟨"prepareLegacySession", .POST, "Prepare legacy session.", some "cloudAgentSessionId?, kiloSessionId, prompt, mode, model, githubRepo OR gitlabProject, profileName?, envVars?, setupCommands?, autoCommit?", none⟩,
    ⟨"initiateFromKilocodeSessionV2", .POST, "Initiate from prepared session. Returns executionId + streamUrl.", some "cloudAgentSessionId (for prepared) OR kiloSessionId + githubRepo + prompt + mode + model (for legacy)", none⟩,
    ⟨"initiateSessionStream", .POST, "Initiate session with SSE streaming.", some "prompt, mode, model, githubRepo OR gitlabProject, profileName?, envVars?, setupCommands?, autoCommit?", none⟩,
    ⟨"initiateFromKilocodeSessionStream", .POST, "Initiate from Kilocode session with SSE streaming.", some "cloudAgentSessionId? OR kiloSessionId + githubRepo + prompt + mode + model", none⟩,
    ⟨"sendMessageV2", .POST, "Send message to initiated session. Returns executionId + streamUrl for WebSocket.", some "cloudAgentSessionId, prompt, mode (architect|code|ask|debug|orchestrator), model, autoCommit?", none⟩,
    ⟨"sendMessageStream", .POST, "Send message with SSE stream directly.", some "cloudAgentSessionId, prompt, mode, model, autoCommit?", none⟩,
    ⟨"interruptSession", .POST, "Interrupt running session.", some "sessionId", none⟩,
    ⟨"deleteSession", .POST, "Delete session.", some "sessionId", none⟩
  ]),
  ("cloudAgentNext", [
    ⟨"getSession", .GET, "Get session details.", some "cloudAgentSessionId", none⟩,
    ⟨"listGitHubRepositories", .GET, "List GitHub repositories.", some "forceRefresh?", none⟩,
    ⟨"listGitLabRepositories", .GET, "List GitLab repositories.", some "forceRefresh?", none⟩,
    ⟨"prepareSession", .POST, "Prepare session. Returns kiloSessionId (ses_...) and cloudAgentSessionId (agent_...).", some "prompt, mode (plan|code|build|orchestrator|architect|ask|custom), model, githubRepo OR gitlabProject (mutually exclusive), profileName?, envVars?, setupCommands?, mcpServers?, upstreamBranch?, autoCommit?", none⟩,
    ⟨"initiateFromPreparedSession", .POST, "Initiate prepared session. Returns executionId and streamUrl.", some "cloudAgentSessionId", none⟩,
    ⟨"interruptSession", .POST, "Interrupt session.", some "sessionId", none⟩,
    ⟨"sendMessage", .POST, "Send message to initiated session. Only supports plan|build modes. Returns executionId and streamUrl.", some "cloudAgentSessionId, prompt, mode (plan|build), model, autoCommit?", none⟩
  ]),
  ("cliSessions", [
    ⟨"list", .GET, "List CLI sessions from CloudAgent.", none, none⟩,
    ⟨"get", .GET, "Get CLI session details.", some "session_id", none⟩,
    ⟨"search", .GET, "Search CLI sessions.", some "search_string, limit?, offset?, createdOnPlatform?, organizationId?", none⟩,
    ⟨"getSessionMessages", .GET, "Get CLI session messages.", some "session_id", none⟩,
    ⟨"getSessionApiConversationHistory", .GET, "Get CLI session API conversation history.", some "session_id", none⟩,
    ⟨"getSessionGitState", .GET, "Get CLI session git state.", some "session_id", none⟩,
    ⟨"getByCloudAgentSessionId", .GET, "Get CLI session by cloud agent session ID (agent_...).", some "cloud_agent_session_id", none⟩,
    ⟨"createV2", .POST, "Create CLI session.", some "created_on_platform (cloud-agent|cli|agent-manager), title?, git_url?, version?, last_mode?, last_model?, organization_id?, parent_session_id?, cloud_agent_session_id?", none⟩,
    ⟨"update", .POST, "Update CLI session.", some "session_id, title?, git_url?, version?, last_mode?, last_model?, organization_id?", none⟩,
    ⟨"delete", .POST, "Delete CLI session.", some "session_id", none⟩,
    ⟨"fork", .POST, "Fork CLI session.", some "share_or_session_id, created_on_platform (cloud-agent|cli|agent-manager)", none⟩,
    ⟨"forkForReview", .POST, "Fork CLI session for review.", some "review_id, created_on_platform (cloud-agent|cli|agent-manager)", none⟩,
    ⟨"share", .POST, "Share CLI session.", some "session_id, shared_state (public|organization)", none⟩,
    ⟨"shareForWebhookTrigger", .POST, "Share CLI session for webhook trigger.", some "kilo_session_id, trigger_id, organization_id?", none⟩,
    ⟨"linkCloudAgent", .POST, "Link cloud agent to CLI session.", some "kilo_session_id, cloud_agent_session_id", none⟩
  ]),
  ("cliSessionsV2", [
    ⟨"list", .GET, "List CLI sessions V2 (CloudAgentNext).", none, none⟩,
    ⟨"get", .GET, "Get CLI session details V2.", some "session_id", none⟩,
    ⟨"getSessionMessages", .GET, "Get CLI session V2 messages (currently returns empty list).", some "session_id", none⟩,
    ⟨"getByCloudAgentSessionId", .GET, "Get CLI session V2 by cloud agent session ID (agent_...).", some "cloud_agent_session_id", none⟩,
    ⟨"getWithRuntimeState", .GET, "Get CLI session V2 with runtime state from DO.", some "session_id", none⟩
  ]),
  ("agentProfiles", [
    ⟨"list", .GET, "List all agent profiles.", none, none⟩,
    ⟨"get", .GET, "Get agent profile details.", some "id", none⟩,
    ⟨"create", .POST, "Create agent profile.", some "name, envVars", none⟩,
    ⟨"update", .POST, "Update agent profile.", some "id, name?, envVars?", none⟩,
    ⟨"delete", .POST, "Delete agent profile.", some "id", none⟩,
    ⟨"setVar", .POST, "Set agent profile variable.", some "id, key, value", none⟩,
    ⟨"deleteVar", .POST, "Delete agent profile variable.", some "id, key", none⟩,
    ⟨"setAsDefault", .POST, "Set agent profile as default.", some "id", none⟩,
    ⟨"clearDefault", .POST, "Clear agent profile default.", none, none⟩,
    ⟨"setCommands", .POST, "Set agent profile commands.", some "id, commands", none⟩,
    ⟨"listCombined", .GET, "List combined agent profiles.", some "organizationId", none⟩
  ]),
  ("codeIndexing", [
    ⟨"search", .GET, "Search code index.", some "query, organizationId?, repositoryId?", none⟩,
    ⟨"getManifest", .GET, "Get code index manifest.", some "repositoryId", none⟩,
    ⟨"isEnabled", .GET, "Check if code indexing is enabled.", some "repositoryId", none⟩,
    ⟨"upsertByFile", .POST, "Upsert code index by file.", some "repositoryId, filePath, content", none⟩,
    ⟨"delete", .POST, "Delete code index.", some "repositoryId", none⟩
  ]),
  ("kiloPass", [
    ⟨"getState", .GET, "Get Kilo Pass state.", none, none⟩,
    ⟨"getCheckoutReturnState", .GET, "Get checkout return state.", some "sessionId", none⟩,
    ⟨"getAverageMonthlyUsageLast3Months", .GET, "Get average monthly usage last 3 months.", none, none⟩,
    ⟨"getFirstMonthPromoEligibility", .GET, "Get first month promo eligibility.", none, none⟩
  ]),
  ("byok", [
    ⟨"list", .GET, "List all BYOK (Bring Your Own Key) entries.", none, none⟩,
    ⟨"create", .POST, "Create BYOK entry.", some "provider_id, api_key", none⟩,
    ⟨"update", .POST, "Update BYOK entry.", some "id, api_key", none⟩,
    ⟨"delete", .POST, "Delete BYOK entry.", some "id", none⟩
  ]),
  ("appBuilder", [
    ⟨"checkEligibility", .GET, "Check app builder eligibility.", none, none⟩,
    ⟨"listProjects", .GET, "List app builder projects.", none, none⟩,
    ⟨"getProject", .GET, "Get app builder project details.", some "projectId", none⟩,
    ⟨"createProject", .POST, "Create app builder project. (Next step: startSession)", some "prompt, model, images?, title?, template?, mode? (code|ask)", none⟩,
    ⟨"startSession", .POST, "Start/initiate app builder session. (Poll with: cloudAgent.getSession field execution.status=null, Next step: deployProject)", some "projectId", none⟩,
    ⟨"deployProject", .POST, "Deploy app builder project. (Poll with: deployments.getDeployment field latestBuild.status!=building. Next step: getBuildEvents)", some "projectId", none⟩,
    ⟨"interruptSession", .POST, "Interrupt app builder session.", some "projectId", none⟩,
    ⟨"sendMessage", .POST, "Send message to app builder.", some "projectId, message", none⟩,
    ⟨"getPreviewUrl", .GET, "Get app builder preview URL.", some "projectId", none⟩,
    ⟨"getImageUploadUrl", .POST, "Get image upload URL.", some "messageUuid, imageId, contentType (image/png|image/jpeg|image/webp|image/gif), contentLength", none⟩,
    ⟨"generateCloneToken", .POST, "Generate clone token.", some "projectId", none⟩,
    ⟨"triggerBuild", .POST, "Trigger app builder build.", some "projectId", none⟩,
    ⟨"deleteProject", .POST, "Delete app builder project.", some "projectId", none⟩
  ]),
  ("deployments", [
    ⟨"listDeployments", .GET, "List all deployments.", none, none⟩,
    ⟨"getDeployment", .GET, "Get deployment details.", some "id", none⟩,
    ⟨"createDeployment", .POST, "Create deployment.", some "platformIntegrationId, repositoryFullName, branch, envVars?", none⟩,
    ⟨"setEnvVar", .POST, "Set deployment environment variable.", some "deploymentId, key, value, isSecret", none⟩,
    ⟨"deleteDeployment", .POST, "Delete deployment.", some "id", none⟩,
    ⟨"checkDeploymentEligibility", .GET, "Check deployment eligibility.", none, none⟩,
    ⟨"deleteEnvVar", .POST, "Delete deployment env var.", some "deploymentId, key", none⟩,
    ⟨"renameEnvVar", .POST, "Rename deployment env var.", some "deploymentId, oldKey, newKey", none⟩,
    ⟨"listEnvVars", .GET, "List deployment env vars.", some "deploymentId", none⟩,
    ⟨"redeploy", .POST, "Redeploy.", some "id", none⟩,
    ⟨"cancelBuild", .POST, "Cancel build.", some "deploymentId, buildId", none⟩,
    ⟨"getBuildEvents", .GET, "Get build events.", some "deploymentId, buildId, limit?, afterEventId?", none⟩
  ]),
  ("autoTriage", [
    ⟨"listTicketsForUser", .GET, "List auto triage tickets for user.", some "limit?, offset?, status? (pending|analyzing|actioned|failed|skipped), classification? (bug|feature|question|duplicate|unclear), repoFullName?", none⟩,
    ⟨"getTicket", .GET, "Get auto triage ticket details.", some "ticketId", none⟩,
    ⟨"retrigger", .POST, "Retrigger a failed triage ticket.", some "ticketId", none⟩
  ]),
  ("autoFix", [
    ⟨"listTicketsForUser", .GET, "List auto fix tickets for user.", some "limit?, offset?, status?, classification?, repoFullName?", none⟩,
    ⟨"getTicket", .GET, "Get auto fix ticket details.", some "ticketId", none⟩,
    ⟨"retrigger", .POST, "Retrigger a failed fix ticket.", some "ticketId", none⟩,
    ⟨"cancel", .POST, "Cancel a fix ticket.", some "ticketId", none⟩
  ]),
  ("codeReviews", [
    ⟨"listForUser", .GET, "List code reviews for user.", some "limit?, offset?, status?, repoFullName?", none⟩,
    ⟨"get", .GET, "Get code review details.", some "reviewId", none⟩,
    ⟨"cancel", .POST, "Cancel code review.", some "reviewId", none⟩,
    ⟨"retrigger", .POST, "Retrigger code review.", some "reviewId", none⟩
  ]),
  ("personalReviewAgent", [
    ⟨"getGitHubStatus", .GET, "Get GitHub App installation status for personal reviews.", none, none⟩,
    ⟨"listGitHubRepositories", .GET, "List GitHub repositories for personal reviews.", some "forceRefresh?", none⟩,
    ⟨"getReviewConfig", .GET, "Get personal review agent config.", none, none⟩,
    ⟨"saveReviewConfig", .POST, "Save personal review agent config.", some "reviewStyle (strict|balanced|lenient), focusAreas, customInstructions?, maxReviewTimeMinutes (5-30), modelSlug, repositorySelectionMode? (all|selected), selectedRepositoryIds?", none⟩,
    ⟨"toggleReviewAgent", .POST, "Toggle personal review agent.", some "isEnabled", none⟩
  ]),
  ("githubApps", [
    ⟨"listIntegrations", .GET, "List GitHub app integrations.", none, none⟩,
    ⟨"getInstallation", .GET, "Get GitHub app installation.", none, none⟩,
    ⟨"checkUserPendingInstallation", .GET, "Check user pending GitHub installation.", none, none⟩,
    ⟨"cancelPendingInstallation", .POST, "Cancel pending installation.", none, none⟩,
    ⟨"listRepositories", .GET, "List GitHub repositories.", some "integrationId, forceRefresh?", none⟩,
    ⟨"listBranches", .GET, "List GitHub branches.", some "integrationId, repositoryFullName", none⟩,
    ⟨"refreshInstallation", .POST, "Refresh installation.", none, none⟩,
    ⟨"uninstallApp", .POST, "Uninstall GitHub app.", none, none⟩
  ]),
  ("gitlab", [
    ⟨"getInstallation", .GET, "Get GitLab installation.", none, none⟩,
    ⟨"disconnect", .POST, "Disconnect GitLab.", none, none⟩,
    ⟨"disconnectOrg", .POST, "Disconnect GitLab organization.", some "organizationId", none⟩,
    ⟨"getIntegration", .GET, "Get GitLab integration.", some "organizationId?", none⟩,
    ⟨"listRepositories", .GET, "List GitLab repositories.", some "organizationId?, integrationId, forceRefresh?", none⟩,
    ⟨"listBranches", .GET, "List GitLab branches.", some "organizationId?, integrationId, projectPath", none⟩,
    ⟨"refreshRepositories", .POST, "Refresh GitLab repositories.", some "organizationId?, integrationId", none⟩
  ]),
  ("slack", [
    ⟨"getInstallation", .GET, "Get Slack installation.", none, none⟩,
    ⟨"getOAuthUrl", .GET, "Get Slack OAuth URL.", none, none⟩,
    ⟨"uninstallApp", .POST, "Uninstall Slack app.", none, none⟩,
    ⟨"testConnection", .POST, "Test Slack connection.", none, none⟩,
    ⟨"sendTestMessage", .POST, "Send test Slack message.", none, none⟩,
    ⟨"updateModel", .POST, "Update Slack model.", some "modelSlug", none⟩
  ])
]

def restEndpoints : List (String × List EndpointConfig) := [
  ("profile", [
    ⟨"GET /api/profile", .GET, "Get user profile + organizations.", none, none⟩,
    ⟨"GET /api/profile/usage", .GET, "Get user usage data.", some "groupByModel (boolean), viewType (personal|all|orgId)", none⟩,
    ⟨"GET /api/profile/balance", .GET, "Get user credit balance.", none, none⟩,
    ⟨"POST /api/profile/redeem-promocode", .POST, "Redeem promo code.", some "code", none⟩
  ]),
  ("marketplace", [
    ⟨"GET /api/marketplace/skills", .GET, "List marketplace skills (returns YAML).", none, some true⟩,
    ⟨"GET /api/marketplace/modes", .GET, "List marketplace modes (returns YAML).", none, some true⟩,
    ⟨"GET /api/marketplace/mcps", .GET, "List marketplace MCPs (returns YAML).", none, some true⟩
  ]),
  ("openrouter", [
    ⟨"GET /api/openrouter/models", .GET, "List OpenRouter models.", none, none⟩,
    ⟨"GET /api/openrouter/providers", .GET, "List providers.", none, none⟩,
    ⟨"GET /api/openrouter/models-by-provider", .GET, "Models by provider.", some "provider", none⟩
  ]),
  ("defaults", [
    ⟨"GET /api/defaults", .GET, "Get defaults.", none, none⟩
  ]),
  ("models", [
    ⟨"GET /api/models/up", .GET, "Model health check.", some "key (string, required for auth)", none⟩,
    ⟨"GET /api/models/stats", .GET, "Model stats overview.", none, none⟩,
    ⟨"GET /api/models/stats/[slug]", .GET, "Per-model stats.", some "slug (string, required)", none⟩,
    ⟨"GET /api/modelstats", .GET, "Model stats (alt).", none, none⟩
  ]),
  ("fim", [
    ⟨"POST /api/fim/completions", .POST, "FIM (fill-in-middle) completions.", some "model (string, required, e.g. mistralai/codestral-latest), prompt (string, required), suffix (string, optional), max_tokens (number, optional, max 1000), min_tokens (number, optional), stop (array of strings, optional), stream (boolean, optional)", none⟩
  ])
]

/-- Keys of the tRPC table joined namespace-dot-name with their built
procedures. -/
def trpcProcList : List (String × Procedure) :=
  trpcEndpoints.flatMap (fun p =>
    p.2.map (fun e =>
      (p.1 ++ "." ++ e.name, createTrpcProcedure p.1 e.name e.method e.description e.params)))

/-- Drop the leading method word of a REST endpoint name, mirroring the
anchored method-prefix regex replace. -/
def dropMethodTag (s : String) : String :=
  if "GET ".data.isPrefixOf s.data then String.mk (s.data.drop 4)
  else if "POST ".data.isPrefixOf s.data then String.mk (s.data.drop 5)
  else if "PUT ".data.isPrefixOf s.data then String.mk (s.data.drop 4)
  else if "DELETE ".data.isPrefixOf s.data then String.mk (s.data.drop 7)
  else s

/-- Drop a leading api path segment, mirroring the anchored regex replace;
the base URL already ends in it. -/
def dropApiTag (s : String) : String :=
  if "/api".data.isPrefixOf s.data then String.mk (s.data.drop 4) else s

/-- REST entries keyed by their full name (method and path) with their
built procedures. -/
def restProcList : List (String × Procedure) :=
  restEndpoints.flatMap (fun p =>
    p.2.map (fun e =>
      (e.name, createRestProcedure (dropApiTag (dropMethodTag e.name)) e.method
        e.description e.params e.raw)))

/-- The ProcedureKey-to-Procedure mapping built once at initialization.
Assignment order in the source is the tRPC loop then the REST loop; keys
are unique, so an association list looked up front to back is
equivalent. -/
def procedures : List (String × Procedure) := trpcProcList ++ restProcList

/-- All keys present in the procedures mapping. -/
def procedureKeys : List String := procedures.map Prod.fst

/-- Lookup of a caller-supplied procedure key among the table's own
entries.  The members the plain object inherits from Object.prototype are
not own entries; the dispatch guard below handles them separately. -/
def findProcedure (key : String) : Option Procedure := procedures.lookup key

/-- Property names every plain object inherits from Object.prototype.  The
procedures table is a plain object literal, so the property access for one
of these keys yields the truthy inherited member (a function, or the
prototype object itself for the dunder proto key) instead of undefined. -/
def objectProtoKeys : List String :=
  ["constructor", "hasOwnProperty", "isPrototypeOf", "propertyIsEnumerable",
   "toLocaleString", "toString", "valueOf", "__proto__", "__defineGetter__",
   "__defineSetter__", "__lookupGetter__", "__lookupSetter__"]

/-- The structured error object the dispatcher returns on any failure. -/
def errorJson (e : JsError) : Json :=
  .obj [("error", .bool true), ("message", .str e.message), ("stack", .str e.stack)]

/-- Parameter parsing at the dispatcher boundary: the params string is
parsed as JSON when truthy, so an absent or empty string yields the empty
object, and invalid JSON raises a syntax error. -/
def dispatchParams (env : JsEnv) (params : Option String) : Except JsError Json :=
  match params with
  | none => .ok (.obj [])
  | some s =>
    if s = "" then .ok (.obj [])
    else
      match jsonParse s with
      | some v => .ok v
      | none => .error (mkError env (env.parseErrMsg s))

/-- Rendering of a successful execution result: a raw wrapper (any result
with a truthy underscore-raw property) becomes status-prefixed text, any
other value is pretty-printed JSON. -/
def renderResult (result : Json) : String :=
  if jsTruthy result && jsTruthyOpt (jsGet result "_raw") then
    "Status: " ++ jsToStringU (jsGet result "status") ++ "\n\n" ++
      jsToStringU (jsGet result "content")
  else stringifyPretty result

/-- The tool's execute entry point: guard on the truthiness of the
property access, parse the parameters, run the procedure, render the
result; every thrown error is caught at this boundary and returned as
pretty-printed JSON of the structured error object.  A key with no own
entry only fires the guard when it is not inherited from
Object.prototype: an inherited member is truthy, passes the guard, and
the call of its absent execute member then throws the runtime TypeError
after the parameters were parsed. -/
def execute (env : JsEnv) (fetch : Request → Except JsError (Nat × String))
    (procedure : String) (params : Option String) : String :=
  let inner : Except JsError String :=
    match findProcedure procedure with
    | none =>
      if objectProtoKeys.contains procedure then
        match dispatchParams env params with
        | .error e => .error e
        | .ok _ => .error (mkError env "procedure.execute is not a function")
      else .error (mkError env ("Procedure " ++ procedure ++ " not found."))
    | some proc =>
      match dispatchParams env params with
      | .error e => .error e
      | .ok parsedParams =>
        match proc.execute env fetch parsedParams with
        | .error e => .error e
        | .ok result => .ok (renderResult result)
  match inner with
  | .ok s => s
  | .error e => stringifyPretty (errorJson e)

/-! Basic facts about digit characters, whitespace and decimal printing. -/

/-- JSON whitespace characters are not digits. -/
theorem wsNotDigit (c : Char) (h : isWsChar c = true) : c.isDigit = false := by
  simp [isWsChar] at h
  rcases h with ((h | h) | h) | h <;> subst h <;> decide

/-- Digit characters are not whitespace, closing brackets, braces or
commas. -/
theorem digitFacts (c : Char) (h : c.isDigit = true) :
    isWsChar c = false ∧ c ≠ ']' ∧ c ≠ rbrace ∧ c ≠ ',' := by
  refine ⟨?_, ?_, ?_, ?_⟩
  · cases hw : isWsChar c with
    | false => rfl
    | true => rw [wsNotDigit c hw] at h; exact Bool.noConfusion h
  · intro he; subst he; exact absurd h (by decide)
  · intro he; subst he; exact absurd h (by decide)
  · intro he; subst he; exact absurd h (by decide)

theorem digitChar_isDigit : ∀ m : Nat, m < 10 → (digitChar m).isDigit = true := by decide

theorem digitChar_toNat : ∀ m : Nat, m < 10 → (digitChar m).toNat = 48 + m := by decide

/-- Every character printed for a natural number is a digit. -/
theorem natChars_digits : ∀ n : Nat, ∀ c ∈ natChars n, c.isDigit = true := by
  intro n
  induction n using Nat.strong_induction_on with
  | _ n ih =>
    intro c hc
    rw [natChars] at hc
    by_cases h : n < 10
    · simp [h] at hc
      subst hc
      exact digitChar_isDigit n h
    · simp [h] at hc
      rcases hc with hc | hc
      · exact ih (n / 10) (Nat.div_lt_self (by omega) (by omega)) c hc
      · subst hc
        exact digitChar_isDigit (n % 10) (Nat.mod_lt n (by omega))

theorem natChars_ne_nil (n : Nat) : natChars n ≠ [] := by
  rw [natChars]
  by_cases h : n < 10 <;> simp [h]

/-- The decimal printing of a natural number starts with a digit. -/
theorem natChars_head : ∀ n : Nat, ∃ d ds, natChars n = d :: ds ∧ d.isDigit = true := by
  intro n
  induction n using Nat.strong_induction_on with
  | _ n ih =>
    rw [natChars]
    by_cases h : n < 10
    · exact ⟨digitChar n, [], by simp [h], digitChar_isDigit n h⟩
    · obtain ⟨d, ds, hd, hdig⟩ := ih (n / 10) (Nat.div_lt_self (by omega) (by omega))
      exact ⟨d, ds ++ [digitChar (n % 10)], by simp [h, hd], hdig⟩

/-- Reading back the decimal printing of a natural number. -/
theorem digitsVal_natChars : ∀ n : Nat, digitsVal (natChars n) = n := by
  intro n
  induction n using Nat.strong_induction_on with
  | _ n ih =>
    rw [natChars]
    by_cases h : n < 10
    · simp [h, digitsVal, List.foldl, digitChar_toNat n h]
    · have ihd := ih (n / 10) (Nat.div_lt_self (by omega) (by omega))
      simp [h, digitsVal, List.foldl_append, List.foldl]
      simp [digitsVal] at ihd
      rw [ihd, digitChar_toNat (n % 10) (Nat.mod_lt n (by omega))]
      omega

theorem takeWhile_append_all {p : Char → Bool} :
    ∀ l₁ l₂ : List Char, (∀ c ∈ l₁, p c = true) →
      (l₁ ++ l₂).takeWhile p = l₁ ++ l₂.takeWhile p := by
  intro l₁
  induction l₁ with
  | nil => simp
  | cons c t ih =>
    intro l₂ h
    simp only [List.cons_append, List.takeWhile_cons, h c (by simp)]
    simp [ih l₂ (fun x hx => h x (by simp [hx]))]

theorem dropWhile_append_all {p : Char → Bool} :
    ∀ l₁ l₂ : List Char, (∀ c ∈ l₁, p c = true) →
      (l₁ ++ l₂).dropWhile p = l₂.dropWhile p := by
  intro l₁
  induction l₁ with
  | nil => simp
  | cons c t ih =>
    intro l₂ h
    simp only [List.cons_append, List.dropWhile_cons, h c (by simp)]
    simp [ih l₂ (fun x hx => h x (by simp [hx]))]

/-- A position where a numeral may legally stop: end of input or a
non-digit character. -/
def boundary (cs : List Char) : Prop :=
  match cs with
  | [] => True
  | c :: _ => c.isDigit = false

theorem takeWhile_digits_nil (cs : List Char) (h : boundary cs) :
    cs.takeWhile Char.isDigit = [] := by
  cases cs with
  | nil => rfl
  | cons c t =>
    simp [boundary] at h
    simp [List.takeWhile_cons, h]

theorem dropWhile_digits_id (cs : List Char) (h : boundary cs) :
    cs.dropWhile Char.isDigit = cs := by
  cases cs with
  | nil => rfl
  | cons c t =>
    simp [boundary] at h
    simp [List.dropWhile_cons, h]

/-- Reading digits off a printed number followed by a boundary. -/
theorem digitsSpan_natChars (n : Nat) (rest : List Char) (h : boundary rest) :
    digitsSpan (natChars n ++ rest) = (natChars n, rest) := by
  simp only [digitsSpan]
  rw [takeWhile_append_all (natChars n) rest (natChars_digits n),
      dropWhile_append_all (natChars n) rest (natChars_digits n),
      takeWhile_digits_nil rest h, dropWhile_digits_id rest h]
  simp

theorem skipWs_cons_nws {c : Char} (h : isWsChar c = false) (cs : List Char) :
    skipWs (c :: cs) = c :: cs := by
  simp [skipWs, List.dropWhile_cons, h]

theorem skipWs_append_ws :
    ∀ ws cs : List Char, (∀ c ∈ ws, isWsChar c = true) →
      skipWs (ws ++ cs) = skipWs cs := by
  intro ws cs h
  simp only [skipWs]
  exact dropWhile_append_all ws cs h

theorem pad_ws (lvl : Nat) : ∀ c ∈ pad lvl, isWsChar c = true := by
  intro c hc
  simp [pad, List.mem_replicate] at hc
  obtain ⟨-, hc⟩ := hc
  subst hc
  decide

/-! Round-trip of JSON string escaping. -/

theorem hexVal_hexDigitChar : ∀ m : Nat, m < 16 → hexVal (hexDigitChar m) = some m := by
  decide

/-- Reading back a four-digit hex escape produced for a value below
0x10000. -/
theorem hex4Val_digits (n : Nat) (h : n < 65536) :
    hex4Val (hexDigitChar (n / 4096 % 16)) (hexDigitChar (n / 256 % 16))
      (hexDigitChar (n / 16 % 16)) (hexDigitChar (n % 16)) = some n := by
  simp only [hex4Val]
  rw [hexVal_hexDigitChar (n / 4096 % 16) (Nat.mod_lt _ (by omega)),
      hexVal_hexDigitChar (n / 256 % 16) (Nat.mod_lt _ (by omega)),
      hexVal_hexDigitChar (n / 16 % 16) (Nat.mod_lt _ (by omega)),
      hexVal_hexDigitChar (n % 16) (Nat.mod_lt _ (by omega))]
  have harith : ((n / 4096 % 16 * 16 + n / 256 % 16) * 16 + n / 16 % 16) * 16 + n % 16 = n := by
    omega
  simp [harith]

/-- Reading back an escaped character sequence: the parser consumes it and
the closing quote, returning the original characters. -/
theorem parseStr_escList :
    ∀ l rest : List Char, parseStrChars (escList l ++ '"' :: rest) = some (l, rest) := by
  intro l
  induction l with
  | nil =>
    intro rest
    simp [escList, parseStrChars]
  | cons c t ih =>
    intro rest
    simp only [escList, List.append_assoc]
    by_cases h1 : c = '"'
    · subst h1
      rw [show escChar '"' = ['\\', '"'] from by decide]
      simp [parseStrChars, escDecode, ih rest]
    · by_cases h2 : c = '\\'
      · subst h2
        rw [show escChar '\\' = ['\\', '\\'] from by decide]
        simp [parseStrChars, escDecode, ih rest]
      · by_cases h3 : c = Char.ofNat 8
        · subst h3
          rw [show escChar (Char.ofNat 8) = ['\\', 'b'] from by decide]
          simp [parseStrChars, escDecode, ih rest]
        · by_cases h4 : c = '\t'
          · subst h4
            rw [show escChar '\t' = ['\\', 't'] from by decide]
            simp [parseStrChars, escDecode, ih rest]
          · by_cases h5 : c = '\n'
            · subst h5
              rw [show escChar '\n' = ['\\', 'n'] from by decide]
              simp [parseStrChars, escDecode, ih rest]
            · by_cases h6 : c = Char.ofNat 12
              · subst h6
                rw [show escChar (Char.ofNat 12) = ['\\', 'f'] from by decide]
                simp [parseStrChars, escDecode, ih rest]
              · by_cases h7 : c = '\r'
                · subst h7
                  rw [show escChar '\r' = ['\\', 'r'] from by decide]
                  simp [parseStrChars, escDecode, ih rest]
                · by_cases h8 : c.toNat < 32
                  · rw [show escChar c = '\\' :: 'u' :: hex4 c.toNat from by
                      simp [escChar, h1, h2, h3, h4, h5, h6, h7, h8]]
                    simp only [hex4, List.cons_append, List.nil_append]
                    simp [parseStrChars, hex4Val_digits c.toNat (by omega), ih rest,
                      Char.ofNat_toNat]
                  · rw [show escChar c = [c] from by
                      simp [escChar, h1, h2, h3, h4, h5, h6, h7, h8]]
                    simp only [List.cons_append, List.nil_append]
                    rw [parseStrChars]
                    · rw [if_neg h8, ih rest]
                    · exact fun hq => h1 hq
                    · intro a b c2 d r hc _
                      exact h2 hc
                    · intro e r hc _
                      exact h2 hc

/-! Fuel weights, well-formed values and parser steps on primitives. -/

mutual

/-- Fuel needed by the parser for a value, counting one unit per parser
call. -/
def jw : Json → Nat
  | .null => 1
  | .bool _ => 1
  | .num _ => 1
  | .str _ => 1
  | .arr xs => 1 + jwElems xs
  | .obj fs => 1 + jwFields fs

/-- Fuel needed for the elements of an array. -/
def jwElems : List Json → Nat
  | [] => 1
  | x :: xs => 1 + jw x + jwElems xs

/-- Fuel needed for the fields of an object. -/
def jwFields : List (String × Json) → Nat
  | [] => 1
  | f :: fs => 1 + jw f.2 + jwFields fs

end

/-- Whether a key is absent from a field list. -/
def noKey (k : String) : List (String × Json) → Bool
  | [] => true
  | f :: fs => f.1 != k && noKey k fs

/-- Whether the keys of a field list are pairwise distinct. -/
def keysNodupB : List (String × Json) → Bool
  | [] => true
  | f :: fs => noKey f.1 fs && keysNodupB fs

mutual

/-- Well-formed JSON values: object keys are pairwise distinct at every
level, as in any value decoded by JavaScript's JSON.parse. -/
def wfB : Json → Bool
  | .null => true
  | .bool _ => true
  | .num _ => true
  | .str _ => true
  | .arr xs => wfL xs
  | .obj fs => keysNodupB fs && wfF fs

/-- Well-formedness of a list of values. -/
def wfL : List Json → Bool
  | [] => true
  | x :: xs => wfB x && wfL xs

/-- Well-formedness of the values of a field list. -/
def wfF : List (String × Json) → Bool
  | [] => true
  | f :: fs => wfB f.2 && wfF fs

end

theorem jw_pos : ∀ v : Json, 1 ≤ jw v := by
  intro v
  cases v <;> simp [jw]

theorem jwElems_pos : ∀ xs : List Json, 1 ≤ jwElems xs := by
  intro xs
  cases xs <;> simp [jwElems] <;> omega

theorem jwFields_pos : ∀ fs : List (String × Json), 1 ≤ jwFields fs := by
  intro fs
  cases fs <;> simp [jwFields] <;> omega

/-- Digit characters are none of the parser's value dispatch characters. -/
theorem digit_ne (c : Char) (h : c.isDigit = true) :
    c ≠ lbrace ∧ c ≠ '[' ∧ c ≠ '"' ∧ c ≠ 'n' ∧ c ≠ 't' ∧ c ≠ 'f' ∧ c ≠ '-' := by
  refine ⟨?_, ?_, ?_, ?_, ?_, ?_, ?_⟩ <;>
    (intro he; subst he; exact absurd h (by decide))

/-- The decimal printing of an integer starts with a minus sign or a
digit, never whitespace or a closing delimiter. -/
theorem intChars_head (i : Int) :
    ∃ c cs, intChars i = c :: cs ∧ isWsChar c = false ∧ c ≠ ']' ∧ c ≠ rbrace := by
  by_cases h : i < 0
  · exact ⟨'-', natChars (-i).toNat, by simp [intChars, h], by decide, by decide, by decide⟩
  · obtain ⟨d, ds, hnat, hdig⟩ := natChars_head i.toNat
    exact ⟨d, ds, by simp [intChars, h, hnat], (digitFacts d hdig).1,
      (digitFacts d hdig).2.1, (digitFacts d hdig).2.2.1⟩

/-- The pretty printing of a value starts with a non-whitespace character
that is not a closing delimiter. -/
theorem pppHead (lvl : Nat) (v : Json) :
    ∃ c cs, ppp lvl v = c :: cs ∧ isWsChar c = false ∧ c ≠ ']' ∧ c ≠ rbrace := by
  cases v with
  | null => exact ⟨'n', ['u', 'l', 'l'], by simp [ppp], by decide, by decide, by decide⟩
  | bool b =>
    cases b with
    | false => exact ⟨'f', ['a', 'l', 's', 'e'], by simp [ppp], by decide, by decide, by decide⟩
    | true => exact ⟨'t', ['r', 'u', 'e'], by simp [ppp], by decide, by decide, by decide⟩
  | num i =>
    obtain ⟨c, cs, h, hw, h1, h2⟩ := intChars_head i
    exact ⟨c, cs, by simp [ppp, h], hw, h1, h2⟩
  | str s =>
    exact ⟨'"', escList s.data ++ ['"'], by simp [ppp, strLit], by decide, by decide, by decide⟩
  | arr xs =>
    cases xs with
    | nil => exact ⟨'[', [']'], by simp [ppp], by decide, by decide, by decide⟩
    | cons x t =>
      exact ⟨'[', '\n' :: (pppElems (lvl + 1) (x :: t) ++ '\n' :: (pad lvl ++ [']'])),
        by simp [ppp], by decide, by decide, by decide⟩
  | obj fs =>
    cases fs with
    | nil => exact ⟨lbrace, [rbrace], by simp [ppp], by decide, by decide, by decide⟩
    | cons f t =>
      exact ⟨lbrace, '\n' :: (pppFields (lvl + 1) (f :: t) ++ '\n' :: (pad lvl ++ [rbrace])),
        by simp [ppp], by decide, by decide, by decide⟩

theorem parseVal_null (f : Nat) (rest : List Char) :
    parseVal (f + 1) ('n' :: 'u' :: 'l' :: 'l' :: rest) = some (.null, rest) := by
  simp only [parseVal]
  rw [skipWs_cons_nws (by decide)]
  simp [lbrace]

theorem parseVal_true (f : Nat) (rest : List Char) :
    parseVal (f + 1) ('t' :: 'r' :: 'u' :: 'e' :: rest) = some (.bool true, rest) := by
  simp only [parseVal]
  rw [skipWs_cons_nws (by decide)]
  simp [lbrace]

theorem parseVal_false (f : Nat) (rest : List Char) :
    parseVal (f + 1) ('f' :: 'a' :: 'l' :: 's' :: 'e' :: rest) = some (.bool false, rest) := by
  simp only [parseVal]
  rw [skipWs_cons_nws (by decide)]
  simp [lbrace]

theorem parseVal_str (f : Nat) (s : String) (rest : List Char) :
    parseVal (f + 1) (strLit s ++ rest) = some (.str s, rest) := by
  simp only [strLit, List.cons_append, List.append_assoc]
  simp only [parseVal]
  rw [skipWs_cons_nws (by decide)]
  simp [lbrace, parseStr_escList s.data rest]

theorem parseVal_num (f : Nat) (i : Int) (rest : List Char) (hb : boundary rest) :
    parseVal (f + 1) (intChars i ++ rest) = some (.num i, rest) := by
  by_cases hneg : i < 0
  · simp only [intChars, if_pos hneg, List.cons_append]
    simp only [parseVal]
    rw [skipWs_cons_nws (by decide)]
    simp only [lbrace]
    rw [digitsSpan_natChars ((-i).toNat) rest hb]
    obtain ⟨d, ds, hnat, _⟩ := natChars_head (-i).toNat
    rw [hnat]
    show some (Json.num (-(Int.ofNat (digitsVal (d :: ds)))), rest) = some (Json.num i, rest)
    rw [← hnat, digitsVal_natChars]
    have hi : -(Int.ofNat ((-i).toNat)) = i := by
      simp only [Int.ofNat_eq_natCast]
      omega
    rw [hi]
  · obtain ⟨d, ds, hnat, hdig⟩ := natChars_head i.toNat
    obtain ⟨hq1, hq2, hq3, hq4, hq5, hq6, hq7⟩ := digit_ne d hdig
    simp only [intChars, if_neg hneg]
    rw [hnat, List.cons_append]
    simp only [parseVal]
    rw [skipWs_cons_nws (digitFacts d hdig).1]
    simp only [hq1, hq2, hq3, hq4, hq5, hq6, hq7, hdig, if_false, ite_false, if_neg,
      ite_true, if_true]
    rw [show d :: (ds ++ rest) = natChars i.toNat ++ rest from by rw [hnat, List.cons_append]]
    rw [digitsSpan_natChars i.toNat rest hb]
    rw [hnat]
    show some (Json.num (Int.ofNat (digitsVal (d :: ds))), rest) = some (Json.num i, rest)
    rw [← hnat, digitsVal_natChars]
    have hi : Int.ofNat (i.toNat) = i := by
      simp only [Int.ofNat_eq_natCast]
      omega
    rw [hi]

/-! Helper steps for the parser round-trip induction. -/

theorem parseVal_ws (f : Nat) (ws cs : List Char) (h : ∀ c ∈ ws, isWsChar c = true) :
    parseVal f (ws ++ cs) = parseVal f cs := by
  cases f with
  | zero => rfl
  | succ f =>
    simp only [parseVal]
    rw [skipWs_append_ws ws cs h]

theorem parseElems_ws (f : Nat) (b : Bool) (ws cs : List Char)
    (h : ∀ c ∈ ws, isWsChar c = true) :
    parseElems f b (ws ++ cs) = parseElems f b cs := by
  cases f with
  | zero => rfl
  | succ f =>
    simp only [parseElems]
    rw [skipWs_append_ws ws cs h]

theorem parseFields_ws (f : Nat) (b : Bool) (acc : List (String × Json)) (ws cs : List Char)
    (h : ∀ c ∈ ws, isWsChar c = true) :
    parseFields f b acc (ws ++ cs) = parseFields f b acc cs := by
  cases f with
  | zero => rfl
  | succ f =>
    simp only [parseFields]
    rw [skipWs_append_ws ws cs h]

theorem parseElems_closeEmpty (f : Nat) (rest : List Char) :
    parseElems (f + 1) true (']' :: rest) = some ([], rest) := by
  simp only [parseElems]
  rw [skipWs_cons_nws (by decide)]
  simp

theorem parseFields_closeEmpty (f : Nat) (acc : List (String × Json)) (rest : List Char) :
    parseFields (f + 1) true acc (rbrace :: rest) = some (.obj acc, rest) := by
  simp only [parseFields]
  rw [skipWs_cons_nws (by decide)]
  simp

theorem noKey_append (k : String) :
    ∀ a b : List (String × Json), noKey k (a ++ b) = (noKey k a && noKey k b) := by
  intro a b
  induction a with
  | nil => simp [noKey]
  | cons p t ih => simp [noKey, ih, Bool.and_assoc]

/-- Inserting a fresh key appends the field. -/
theorem upsert_fresh :
    ∀ (acc : List (String × Json)) (k : String) (v : Json), noKey k acc = true →
      upsert acc k v = acc ++ [(k, v)] := by
  intro acc
  induction acc with
  | nil => intro k v _; rfl
  | cons p t ih =>
    intro k v h
    simp only [noKey, Bool.and_eq_true, bne_iff_ne] at h
    simp only [upsert, if_neg h.1, List.cons_append]
    rw [ih k v h.2]

theorem noKey_mem (k : String) :
    ∀ l : List (String × Json), noKey k l = true → ∀ p ∈ l, p.1 ≠ k := by
  intro l
  induction l with
  | nil => intro _ p hp; exact absurd hp (by simp)
  | cons q t ih =>
    intro h p hp
    simp only [noKey, Bool.and_eq_true, bne_iff_ne] at h
    rw [List.mem_cons] at hp
    rcases hp with hp | hp
    · subst hp; exact h.1
    · exact ih h.2 p hp

theorem boundary_wsCons (ws : List Char) (c : Char) (rest : List Char)
    (hws : ∀ x ∈ ws, isWsChar x = true) (hc : c.isDigit = false) :
    boundary (ws ++ c :: rest) := by
  cases ws with
  | nil => exact hc
  | cons w t => exact wsNotDigit w (hws w (by simp))

/-! Dispatch steps of the value parser and the round-trip induction. -/

theorem parseVal_openArr (f : Nat) (T : List Char) :
    parseVal (f + 1) ('[' :: T) =
      match parseElems f true T with
      | some (vs, r) => some (Json.arr vs, r)
      | none => none := by
  simp only [parseVal]
  rw [skipWs_cons_nws (by decide)]
  simp [lbrace]

theorem parseVal_openObj (f : Nat) (T : List Char) :
    parseVal (f + 1) (lbrace :: T) = parseFields f true [] T := by
  simp only [parseVal]
  rw [skipWs_cons_nws (by decide)]
  simp

theorem parseElems_value (f : Nat) (b : Bool) (c : Char) (X : List Char)
    (hws : isWsChar c = false) (hne : c ≠ ']') :
    parseElems (f + 1) b (c :: X) =
      match parseVal f (c :: X) with
      | none => none
      | some (v, r) =>
        match skipWs r with
        | [] => none
        | c2 :: r2 =>
          if c2 = ',' then
            match parseElems f false r2 with
            | some (vs, r3) => some (v :: vs, r3)
            | none => none
          else if c2 = ']' then some ([v], r2)
          else none := by
  simp only [parseElems]
  rw [skipWs_cons_nws hws]
  simp [hne]

theorem parseFields_key (f : Nat) (b : Bool) (acc : List (String × Json)) (X : List Char) :
    parseFields (f + 1) b acc ('"' :: X) =
      match parseStrChars X with
      | none => none
      | some (kcs, r) =>
        match skipWs r with
        | [] => none
        | c2 :: r2 =>
          if c2 = ':' then
            match parseVal f r2 with
            | none => none
            | some (v, r3) =>
              match skipWs r3 with
              | [] => none
              | c3 :: r4 =>
                if c3 = ',' then parseFields f false (upsert acc (String.mk kcs) v) r4
                else if c3 = rbrace then some (.obj (upsert acc (String.mk kcs) v), r4)
                else none
          else none := by
  simp only [parseFields]
  rw [skipWs_cons_nws (by decide)]
  simp [rbrace]

/-- The parser reads back the pretty printer's output: one statement each
for values, array elements and object fields, by induction on fuel. -/
theorem parseRound : ∀ f : Nat,
    (∀ (v : Json) (lvl : Nat) (rest : List Char), wfB v = true → jw v ≤ f → boundary rest →
      parseVal f (ppp lvl v ++ rest) = some (v, rest)) ∧
    (∀ (xs : List Json) (lvl : Nat) (ws rest : List Char) (b : Bool), xs ≠ [] →
      wfL xs = true → jwElems xs ≤ f → (∀ c ∈ ws, isWsChar c = true) →
      parseElems f b (pppElems lvl xs ++ (ws ++ ']' :: rest)) = some (xs, rest)) ∧
    (∀ (fs acc : List (String × Json)) (lvl : Nat) (ws rest : List Char) (b : Bool),
      fs ≠ [] → keysNodupB fs = true → wfF fs = true → jwFields fs ≤ f →
      (∀ p ∈ fs, noKey p.1 acc = true) → (∀ c ∈ ws, isWsChar c = true) →
      parseFields f b acc (pppFields lvl fs ++ (ws ++ rbrace :: rest)) =
        some (.obj (acc ++ fs), rest)) := by
  intro f
  induction f with
  | zero =>
    refine ⟨?_, ?_, ?_⟩
    · intro v _ _ _ hle _
      exact absurd hle (by have := jw_pos v; omega)
    · intro xs _ _ _ _ _ _ hle _
      exact absurd hle (by have := jwElems_pos xs; omega)
    · intro fs _ _ _ _ _ _ _ _ hle _ _
      exact absurd hle (by have := jwFields_pos fs; omega)
  | succ f ih =>
    obtain ⟨ihv, ihe, ihf⟩ := ih
    refine ⟨?_, ?_, ?_⟩
    · intro v lvl rest hwf hle hb
      cases v with
      | null =>
        rw [show ppp lvl Json.null = ['n', 'u', 'l', 'l'] from by simp [ppp]]
        simp only [List.cons_append, List.nil_append]
        exact parseVal_null f rest
      | bool b =>
        cases b with
        | true =>
          rw [show ppp lvl (Json.bool true) = ['t', 'r', 'u', 'e'] from by simp [ppp]]
          simp only [List.cons_append, List.nil_append]
          exact parseVal_true f rest
        | false =>
          rw [show ppp lvl (Json.bool false) = ['f', 'a', 'l', 's', 'e'] from by simp [ppp]]
          simp only [List.cons_append, List.nil_append]
          exact parseVal_false f rest
      | num i =>
        rw [show ppp lvl (Json.num i) = intChars i from by simp [ppp]]
        exact parseVal_num f i rest hb
      | str s =>
        rw [show ppp lvl (Json.str s) = strLit s from by simp [ppp]]
        exact parseVal_str f s rest
      | arr xs =>
        cases xs with
        | nil =>
          rw [show ppp lvl (Json.arr []) = ['[', ']'] from by simp [ppp]]
          simp only [List.cons_append, List.nil_append]
          obtain ⟨f', rfl⟩ : ∃ f', f = f' + 1 := by
            refine ⟨f - 1, ?_⟩
            simp [jw, jwElems] at hle
            omega
          rw [parseVal_openArr]
          rw [parseElems_closeEmpty f' rest]
        | cons x txs =>
          have hwl : wfL (x :: txs) = true := by simpa [wfB] using hwf
          have hjwe : jwElems (x :: txs) ≤ f := by
            simp [jw] at hle
            omega
          rw [show ppp lvl (Json.arr (x :: txs)) =
              '[' :: '\n' :: (pppElems (lvl + 1) (x :: txs) ++ '\n' :: (pad lvl ++ [']']))
            from by simp [ppp]]
          simp only [List.cons_append, List.append_assoc, List.nil_append]
          rw [parseVal_openArr]
          rw [show ('\n' :: (pppElems (lvl + 1) (x :: txs) ++ '\n' :: (pad lvl ++ ']' :: rest)))
              = ['\n'] ++ (pppElems (lvl + 1) (x :: txs) ++ (('\n' :: pad lvl) ++ ']' :: rest))
            from by simp]
          rw [parseElems_ws f true ['\n'] _ (by intro c hc; simp at hc; subst hc; decide)]
          have he := ihe (x :: txs) (lvl + 1) ('\n' :: pad lvl) rest true (by simp) hwl hjwe
            (by
              intro c hc
              rw [List.mem_cons] at hc
              rcases hc with hc | hc
              · subst hc; decide
              · exact pad_ws lvl c hc)
          simp only [List.cons_append, List.append_assoc, List.nil_append] at he ⊢
          rw [he]
      | obj fs =>
        cases fs with
        | nil =>
          rw [show ppp lvl (Json.obj []) = [lbrace, rbrace] from by simp [ppp]]
          simp only [List.cons_append, List.nil_append]
          obtain ⟨f', rfl⟩ : ∃ f', f = f' + 1 := by
            refine ⟨f - 1, ?_⟩
            simp [jw, jwFields] at hle
            omega
          rw [parseVal_openObj]
          rw [parseFields_closeEmpty f' [] rest]
        | cons p tfs =>
          have hwl : keysNodupB (p :: tfs) = true ∧ wfF (p :: tfs) = true := by
            have := hwf
            simp [wfB] at this
            exact this
          have hjwe : jwFields (p :: tfs) ≤ f := by
            simp [jw] at hle
            omega
          rw [show ppp lvl (Json.obj (p :: tfs)) =
              lbrace :: '\n' :: (pppFields (lvl + 1) (p :: tfs) ++ '\n' :: (pad lvl ++ [rbrace]))
            from by simp [ppp]]
          simp only [List.cons_append, List.append_assoc, List.nil_append]
          rw [parseVal_openObj]
          rw [show ('\n' :: (pppFields (lvl + 1) (p :: tfs) ++ '\n' :: (pad lvl ++ rbrace :: rest)))
              = ['\n'] ++ (pppFields (lvl + 1) (p :: tfs) ++ (('\n' :: pad lvl) ++ rbrace :: rest))
            from by simp]
          rw [parseFields_ws f true [] ['\n'] _ (by intro c hc; simp at hc; subst hc; decide)]
          have he := ihf (p :: tfs) [] (lvl + 1) ('\n' :: pad lvl) rest true (by simp)
            hwl.1 hwl.2 hjwe (by intro q _; rfl)
            (by
              intro c hc
              rw [List.mem_cons] at hc
              rcases hc with hc | hc
              · subst hc; decide
              · exact pad_ws lvl c hc)
          simp only [List.cons_append, List.append_assoc, List.nil_append] at he ⊢
          rw [he]
    · intro xs lvl ws rest b hne hwl hjw hws
      cases xs with
      | nil => exact absurd rfl hne
      | cons x txs =>
        have hwx : wfB x = true ∧ wfL txs = true := by
          simp [wfL] at hwl
          exact hwl
        obtain ⟨c, cs', hpp, hcws, hcne1, _⟩ := pppHead lvl x
        cases txs with
        | nil =>
          have hjwx : jw x ≤ f := by
            simp [jwElems] at hjw
            have := jwElems_pos ([] : List Json)
            omega
          rw [show pppElems lvl [x] = pad lvl ++ ppp lvl x from by simp [pppElems]]
          simp only [List.append_assoc]
          rw [parseElems_ws (f + 1) b (pad lvl) _ (pad_ws lvl)]
          rw [hpp]
          simp only [List.cons_append]
          rw [parseElems_value f b c _ hcws hcne1]
          rw [← List.cons_append, ← hpp]
          rw [ihv x lvl (ws ++ ']' :: rest) hwx.1 hjwx
            (boundary_wsCons ws ']' rest hws (by decide))]
          have hsk : skipWs (ws ++ ']' :: rest) = ']' :: rest := by
            rw [skipWs_append_ws ws _ hws]
            exact skipWs_cons_nws (by decide) rest
          simp [hsk]
        | cons y tys =>
          have hjwx : jw x ≤ f ∧ jwElems (y :: tys) ≤ f := by
            simp [jwElems] at hjw ⊢
            have := jwElems_pos tys
            have := jw_pos y
            omega
          rw [show pppElems lvl (x :: y :: tys) =
              pad lvl ++ ppp lvl x ++ ',' :: '\n' :: pppElems lvl (y :: tys)
            from by simp [pppElems]]
          simp only [List.append_assoc]
          rw [parseElems_ws (f + 1) b (pad lvl) _ (pad_ws lvl)]
          rw [hpp]
          simp only [List.cons_append]
          rw [parseElems_value f b c _ hcws hcne1]
          rw [← List.cons_append, ← hpp]
          rw [ihv x lvl (',' :: '\n' :: (pppElems lvl (y :: tys) ++ (ws ++ ']' :: rest)))
            hwx.1 hjwx.1 (by exact (by decide : (',' : Char).isDigit = false))]
          have hsk : skipWs (',' :: '\n' :: (pppElems lvl (y :: tys) ++ (ws ++ ']' :: rest)))
              = ',' :: '\n' :: (pppElems lvl (y :: tys) ++ (ws ++ ']' :: rest)) := by
            exact skipWs_cons_nws (by decide) _
          have hnl : parseElems f false ('\n' :: (pppElems lvl (y :: tys) ++ (ws ++ ']' :: rest)))
              = parseElems f false (pppElems lvl (y :: tys) ++ (ws ++ ']' :: rest)) := by
            have := parseElems_ws f false ['\n']
              (pppElems lvl (y :: tys) ++ (ws ++ ']' :: rest))
              (by intro c2 hc2; simp at hc2; subst hc2; decide)
            simpa using this
          have he2 := ihe (y :: tys) lvl ws rest false (by simp) hwx.2 hjwx.2 hws
          simp [hsk, hnl, he2]
    · intro fs acc lvl ws rest b hne hnd hwl hjw hfresh hws
      cases fs with
      | nil => exact absurd rfl hne
      | cons p tfs =>
        obtain ⟨k, v⟩ := p
        have hwx : wfB v = true ∧ wfF tfs = true := by
          simp [wfF] at hwl
          exact hwl
        have hnd2 : noKey k tfs = true ∧ keysNodupB tfs = true := by
          simp [keysNodupB] at hnd
          exact hnd
        have hkacc : noKey k acc = true := by
          have := hfresh (k, v) (by simp)
          simpa using this
        have hmk : String.mk (String.data k) = k := rfl
        cases tfs with
        | nil =>
          have hjwx : jw v ≤ f := by
            simp [jwFields] at hjw
            have := jwFields_pos ([] : List (String × Json))
            omega
          rw [show pppFields lvl [(k, v)] = pad lvl ++ strLit k ++ ':' :: ' ' :: ppp lvl v
            from by simp [pppFields]]
          simp only [List.append_assoc]
          rw [parseFields_ws (f + 1) b acc (pad lvl) _ (pad_ws lvl)]
          rw [show strLit k = '"' :: (escList k.data ++ ['"']) from rfl]
          simp only [List.cons_append, List.append_assoc, List.nil_append]
          rw [parseFields_key f b acc _]
          rw [parseStr_escList k.data (':' :: ' ' :: (ppp lvl v ++ (ws ++ rbrace :: rest)))]
          have hsk1 : skipWs (':' :: ' ' :: (ppp lvl v ++ (ws ++ rbrace :: rest)))
              = ':' :: ' ' :: (ppp lvl v ++ (ws ++ rbrace :: rest)) := by
            exact skipWs_cons_nws (by decide) _
          have hsp : parseVal f (' ' :: (ppp lvl v ++ (ws ++ rbrace :: rest)))
              = parseVal f (ppp lvl v ++ (ws ++ rbrace :: rest)) := by
            have := parseVal_ws f [' '] (ppp lvl v ++ (ws ++ rbrace :: rest))
              (by intro c2 hc2; simp at hc2; subst hc2; decide)
            simpa using this
          have hv := ihv v lvl (ws ++ rbrace :: rest) hwx.1 hjwx
            (boundary_wsCons ws rbrace rest hws (by decide))
          have hsk2 : skipWs (ws ++ rbrace :: rest) = rbrace :: rest := by
            rw [skipWs_append_ws ws _ hws]
            exact skipWs_cons_nws (by decide) rest
          have hup : upsert acc (String.mk k.data) v = acc ++ [(k, v)] := by
            rw [hmk]
            exact upsert_fresh acc k v hkacc
          simp [hsk1, hsp, hv, hsk2, hup, show ¬rbrace = ',' from by decide]
        | cons q tqs =>
          have hjwx : jw v ≤ f ∧ jwFields (q :: tqs) ≤ f := by
            simp [jwFields] at hjw ⊢
            have := jwFields_pos tqs
            have := jw_pos q.2
            omega
          rw [show pppFields lvl ((k, v) :: q :: tqs) =
              pad lvl ++ strLit k ++ ':' :: ' ' :: ppp lvl v ++
                ',' :: '\n' :: pppFields lvl (q :: tqs)
            from by simp [pppFields]]
          simp only [List.append_assoc]
          rw [parseFields_ws (f + 1) b acc (pad lvl) _ (pad_ws lvl)]
          rw [show strLit k = '"' :: (escList k.data ++ ['"']) from rfl]
          simp only [List.cons_append, List.append_assoc, List.nil_append]
          rw [parseFields_key f b acc _]
          rw [parseStr_escList k.data
            (':' :: ' ' :: (ppp lvl v ++
              (',' :: '\n' :: (pppFields lvl (q :: tqs) ++ (ws ++ rbrace :: rest)))))]
          have hsk1 : skipWs (':' :: ' ' :: (ppp lvl v ++
              (',' :: '\n' :: (pppFields lvl (q :: tqs) ++ (ws ++ rbrace :: rest)))))
              = ':' :: ' ' :: (ppp lvl v ++
                (',' :: '\n' :: (pppFields lvl (q :: tqs) ++ (ws ++ rbrace :: rest)))) := by
            exact skipWs_cons_nws (by decide) _
          have hsp : parseVal f (' ' :: (ppp lvl v ++
              (',' :: '\n' :: (pppFields lvl (q :: tqs) ++ (ws ++ rbrace :: rest)))))
              = parseVal f (ppp lvl v ++
                (',' :: '\n' :: (pppFields lvl (q :: tqs) ++ (ws ++ rbrace :: rest)))) := by
            have := parseVal_ws f [' ']
              (ppp lvl v ++
                (',' :: '\n' :: (pppFields lvl (q :: tqs) ++ (ws ++ rbrace :: rest))))
              (by intro c2 hc2; simp at hc2; subst hc2; decide)
            simpa using this
          have hv := ihv v lvl
            (',' :: '\n' :: (pppFields lvl (q :: tqs) ++ (ws ++ rbrace :: rest)))
            hwx.1 hjwx.1 (by exact (by decide : (',' : Char).isDigit = false))
          have hsk2 : skipWs (',' :: '\n' :: (pppFields lvl (q :: tqs) ++ (ws ++ rbrace :: rest)))
              = ',' :: '\n' :: (pppFields lvl (q :: tqs) ++ (ws ++ rbrace :: rest)) := by
            exact skipWs_cons_nws (by decide) _
          have hup : upsert acc (String.mk k.data) v = acc ++ [(k, v)] := by
            rw [hmk]
            exact upsert_fresh acc k v hkacc
          have hnl : parseFields f false (acc ++ [(k, v)])
              ('\n' :: (pppFields lvl (q :: tqs) ++ (ws ++ rbrace :: rest)))
              = parseFields f false (acc ++ [(k, v)])
                (pppFields lvl (q :: tqs) ++ (ws ++ rbrace :: rest)) := by
            have := parseFields_ws f false (acc ++ [(k, v)]) ['\n']
              (pppFields lvl (q :: tqs) ++ (ws ++ rbrace :: rest))
              (by intro c2 hc2; simp at hc2; subst hc2; decide)
            simpa using this
          have hf2 := ihf (q :: tqs) (acc ++ [(k, v)]) lvl ws rest false (by simp)
            hnd2.2 hwx.2 hjwx.2
            (by
              intro p2 hp2
              rw [noKey_append]
              have h1 : noKey p2.1 acc = true := hfresh p2 (by simp [hp2])
              have h2 : p2.1 ≠ k := noKey_mem k (q :: tqs) hnd2.1 p2 hp2
              simp [h1, noKey, bne_iff_ne]
              exact fun he => h2 he.symm)
            hws
          have hreassoc : (acc ++ [(k, v)]) ++ q :: tqs = acc ++ (k, v) :: q :: tqs := by simp
          rw [hreassoc] at hf2
          simp [hsk1, hsp, hv, hsk2, hup, hnl, hf2, show ¬rbrace = ',' from by decide]

/-! The printed form is long enough to supply the parser's fuel. -/

theorem jwBound : ∀ n : Nat,
    (∀ (v : Json) (lvl : Nat), jw v ≤ n → jw v ≤ (ppp lvl v).length + 1) ∧
    (∀ (xs : List Json) (lvl : Nat), 1 ≤ lvl → xs ≠ [] → jwElems xs ≤ n →
      jwElems xs ≤ (pppElems lvl xs).length + 2) ∧
    (∀ (fs : List (String × Json)) (lvl : Nat), 1 ≤ lvl → fs ≠ [] → jwFields fs ≤ n →
      jwFields fs ≤ (pppFields lvl fs).length + 2) := by
  intro n
  induction n with
  | zero =>
    refine ⟨?_, ?_, ?_⟩
    · intro v _ h
      exact absurd h (by have := jw_pos v; omega)
    · intro xs _ _ _ h
      exact absurd h (by have := jwElems_pos xs; omega)
    · intro fs _ _ _ h
      exact absurd h (by have := jwFields_pos fs; omega)
  | succ n ih =>
    obtain ⟨ihv, ihe, ihf⟩ := ih
    refine ⟨?_, ?_, ?_⟩
    · intro v lvl hle
      cases v with
      | null => simp [jw, ppp]
      | bool b => cases b <;> simp [jw, ppp]
      | num i =>
        simp only [jw]
        omega
      | str s =>
        simp only [jw]
        omega
      | arr xs =>
        cases xs with
        | nil => simp [jw, jwElems, ppp]
        | cons x txs =>
          have h1 : jwElems (x :: txs) ≤ n := by
            simp [jw] at hle
            omega
          have h2 := ihe (x :: txs) (lvl + 1) (by omega) (by simp) h1
          have hlen : (ppp lvl (Json.arr (x :: txs))).length
              = (pppElems (lvl + 1) (x :: txs)).length + 2 * lvl + 4 := by
            simp only [ppp, List.length_cons, List.length_append, List.length_nil, pad,
              List.length_replicate]
            omega
          rw [show jw (Json.arr (x :: txs)) = 1 + jwElems (x :: txs) from by simp [jw]]
          rw [hlen]
          omega
      | obj fs =>
        cases fs with
        | nil => simp [jw, jwFields, ppp]
        | cons p tfs =>
          have h1 : jwFields (p :: tfs) ≤ n := by
            simp [jw] at hle
            omega
          have h2 := ihf (p :: tfs) (lvl + 1) (by omega) (by simp) h1
          have hlen : (ppp lvl (Json.obj (p :: tfs))).length
              = (pppFields (lvl + 1) (p :: tfs)).length + 2 * lvl + 4 := by
            simp only [ppp, List.length_cons, List.length_append, List.length_nil, pad,
              List.length_replicate]
            omega
          rw [show jw (Json.obj (p :: tfs)) = 1 + jwFields (p :: tfs) from by simp [jw]]
          rw [hlen]
          omega
    · intro xs lvl hlvl hne hle
      cases xs with
      | nil => exact absurd rfl hne
      | cons x txs =>
        cases txs with
        | nil =>
          have h1 : jw x ≤ n := by
            simp [jwElems] at hle
            omega
          have h2 := ihv x lvl h1
          have hlen : (pppElems lvl [x]).length = 2 * lvl + (ppp lvl x).length := by
            simp only [pppElems, List.length_append, pad, List.length_replicate]
          rw [show jwElems [x] = 2 + jw x from by simp [jwElems]; omega]
          rw [hlen]
          omega
        | cons y tys =>
          have hx : jw x ≤ n := by
            simp [jwElems] at hle
            have := jwElems_pos tys
            have := jw_pos y
            omega
          have hys : jwElems (y :: tys) ≤ n := by
            simp [jwElems] at hle ⊢
            have := jw_pos x
            omega
          have h2 := ihv x lvl hx
          have h3 := ihe (y :: tys) lvl hlvl (by simp) hys
          have hlen : (pppElems lvl (x :: y :: tys)).length
              = 2 * lvl + (ppp lvl x).length + 2 + (pppElems lvl (y :: tys)).length := by
            simp only [pppElems, List.length_append, List.length_cons, pad,
              List.length_replicate]
            omega
          rw [show jwElems (x :: y :: tys) = 1 + jw x + jwElems (y :: tys) from by
            simp [jwElems]]
          rw [hlen]
          omega
    · intro fs lvl hlvl hne hle
      cases fs with
      | nil => exact absurd rfl hne
      | cons p tfs =>
        obtain ⟨k, v⟩ := p
        cases tfs with
        | nil =>
          have h1 : jw v ≤ n := by
            simp [jwFields] at hle
            omega
          have h2 := ihv v lvl h1
          have hlen : (pppFields lvl [(k, v)]).length
              = 2 * lvl + (strLit k).length + 2 + (ppp lvl v).length := by
            simp only [pppFields, List.length_append, List.length_cons, pad,
              List.length_replicate]
            omega
          rw [show jwFields [(k, v)] = 2 + jw v from by simp [jwFields]; omega]
          rw [hlen]
          omega
        | cons q tqs =>
          have hx : jw v ≤ n := by
            simp [jwFields] at hle
            have := jwFields_pos tqs
            have := jw_pos q.2
            omega
          have hys : jwFields (q :: tqs) ≤ n := by
            simp [jwFields] at hle ⊢
            have := jw_pos v
            omega
          have h2 := ihv v lvl hx
          have h3 := ihf (q :: tqs) lvl hlvl (by simp) hys
          have hlen : (pppFields lvl ((k, v) :: q :: tqs)).length
              = 2 * lvl + (strLit k).length + 2 + (ppp lvl v).length + 2 +
                (pppFields lvl (q :: tqs)).length := by
            simp only [pppFields, List.length_append, List.length_cons, pad,
              List.length_replicate]
            omega
          rw [show jwFields ((k, v) :: q :: tqs) = 1 + jw v + jwFields (q :: tqs) from by
            simp [jwFields]]
          rw [hlen]
          omega

/-- The parser's fuel demand for a value is covered by its printed length. -/
theorem jw_le_ppp (v : Json) (lvl : Nat) : jw v ≤ (ppp lvl v).length + 1 :=
  (jwBound (jw v)).1 v lvl le_rfl

/-- Round trip at the top level: parsing the pretty printing of a
well-formed value returns that value. -/
theorem jsonParse_stringifyPretty (v : Json) (hwf : wfB v = true) :
    jsonParse (stringifyPretty v) = some v := by
  have hmain := (parseRound ((ppp 0 v).length + 1)).1 v 0 [] hwf (jw_le_ppp v 0) trivial
  simp only [List.append_nil] at hmain
  simp only [jsonParse, stringifyPretty]
  rw [hmain]
  simp [skipWs]

/-! Values produced by the parser are well-formed. -/

theorem noKey_upsert (a k : String) (v : Json) :
    ∀ t : List (String × Json), noKey a t = true → a ≠ k →
      noKey a (upsert t k v) = true := by
  intro t
  induction t with
  | nil =>
    intro _ hak
    simp [upsert, noKey, bne_iff_ne]
    exact fun he => hak he.symm
  | cons p t ih =>
    obtain ⟨k1, v1⟩ := p
    intro h hak
    simp only [noKey, Bool.and_eq_true, bne_iff_ne] at h
    by_cases hk : k1 = k
    · simp only [upsert, if_pos hk, noKey, Bool.and_eq_true, bne_iff_ne]
      exact ⟨h.1, h.2⟩
    · simp only [upsert, if_neg hk, noKey, Bool.and_eq_true, bne_iff_ne]
      exact ⟨h.1, ih h.2 hak⟩

theorem keysNodupB_upsert (k : String) (v : Json) :
    ∀ acc : List (String × Json), keysNodupB acc = true →
      keysNodupB (upsert acc k v) = true := by
  intro acc
  induction acc with
  | nil =>
    intro _
    simp [upsert, keysNodupB, noKey]
  | cons p t ih =>
    obtain ⟨k1, v1⟩ := p
    intro h
    simp only [keysNodupB, Bool.and_eq_true] at h
    by_cases hk : k1 = k
    · simp only [upsert, if_pos hk, keysNodupB, Bool.and_eq_true]
      exact ⟨h.1, h.2⟩
    · simp only [upsert, if_neg hk, keysNodupB, Bool.and_eq_true]
      exact ⟨noKey_upsert k1 k v t h.1 hk, ih h.2⟩

theorem wfF_upsert (k : String) (v : Json) (hv : wfB v = true) :
    ∀ acc : List (String × Json), wfF acc = true → wfF (upsert acc k v) = true := by
  intro acc
  induction acc with
  | nil =>
    intro _
    simp [upsert, wfF, hv]
  | cons p t ih =>
    obtain ⟨k1, v1⟩ := p
    intro h
    simp only [wfF, Bool.and_eq_true] at h
    by_cases hk : k1 = k
    · simp only [upsert, if_pos hk, wfF, Bool.and_eq_true]
      exact ⟨hv, h.2⟩
    · simp only [upsert, if_neg hk, wfF, Bool.and_eq_true]
      exact ⟨h.1, ih h.2⟩

/-- Everything the parser returns is well-formed: values have distinct
object keys at every level since fields are assigned through upsert. -/
theorem parseWf : ∀ f : Nat,
    (∀ (cs : List Char) (v : Json) (r : List Char),
      parseVal f cs = some (v, r) → wfB v = true) ∧
    (∀ (b : Bool) (cs : List Char) (vs : List Json) (r : List Char),
      parseElems f b cs = some (vs, r) → wfL vs = true) ∧
    (∀ (b : Bool) (acc : List (String × Json)) (cs : List Char) (v : Json) (r : List Char),
      parseFields f b acc cs = some (v, r) → keysNodupB acc = true → wfF acc = true →
      wfB v = true) := by
  intro f
  induction f with
  | zero =>
    refine ⟨?_, ?_, ?_⟩
    · intro cs v r h
      simp [parseVal] at h
    · intro b cs vs r h
      simp [parseElems] at h
    · intro b acc cs v r h _ _
      simp [parseFields] at h
  | succ f ih =>
    obtain ⟨ihv, ihe, ihf⟩ := ih
    refine ⟨?_, ?_, ?_⟩
    · intro cs v r h
      simp only [parseVal] at h
      split at h
      · simp at h
      next x c rest heq =>
        by_cases h1 : c = lbrace
        · rw [if_pos h1] at h
          exact ihf true [] rest v r h rfl rfl
        · rw [if_neg h1] at h
          by_cases h2 : c = '['
          · rw [if_pos h2] at h
            split at h
            next x2 vs2 r2 heq2 =>
              simp only [Option.some.injEq, Prod.mk.injEq] at h
              rw [← h.1]
              simp only [wfB]
              exact ihe true rest vs2 r2 heq2
            next x2 heq2 => simp at h
          · rw [if_neg h2] at h
            by_cases h3 : c = '"'
            · rw [if_pos h3] at h
              split at h
              next x2 s r2 heq2 =>
                simp only [Option.some.injEq, Prod.mk.injEq] at h
                rw [← h.1]
                simp [wfB]
              next x2 heq2 => simp at h
            · rw [if_neg h3] at h
              by_cases h4 : c = 'n'
              · rw [if_pos h4] at h
                split at h
                · simp only [Option.some.injEq, Prod.mk.injEq] at h
                  rw [← h.1]
                  simp [wfB]
                · simp at h
              · rw [if_neg h4] at h
                by_cases h5 : c = 't'
                · rw [if_pos h5] at h
                  split at h
                  · simp only [Option.some.injEq, Prod.mk.injEq] at h
                    rw [← h.1]
                    simp [wfB]
                  · simp at h
                · rw [if_neg h5] at h
                  by_cases h6 : c = 'f'
                  · rw [if_pos h6] at h
                    split at h
                    · simp only [Option.some.injEq, Prod.mk.injEq] at h
                      rw [← h.1]
                      simp [wfB]
                    · simp at h
                  · rw [if_neg h6] at h
                    by_cases h7 : c = '-'
                    · rw [if_pos h7] at h
                      split at h
                      · simp at h
                      · simp only [Option.some.injEq, Prod.mk.injEq] at h
                        rw [← h.1]
                        simp [wfB]
                    · rw [if_neg h7] at h
                      by_cases h8 : c.isDigit
                      · rw [if_pos h8] at h
                        simp only [Option.some.injEq, Prod.mk.injEq] at h
                        rw [← h.1]
                        simp [wfB]
                      · rw [if_neg h8] at h
                        simp at h
    · intro b cs vs r h
      simp only [parseElems] at h
      split at h
      · simp at h
      next x c rest heq =>
        by_cases h1 : c = ']'
        · rw [if_pos h1] at h
          split at h
          · simp only [Option.some.injEq, Prod.mk.injEq] at h
            rw [← h.1]
            simp [wfL]
          · simp at h
        · rw [if_neg h1] at h
          split at h
          · simp at h
          next x2 v2 r2 heq2 =>
            have hv2 : wfB v2 = true := ihv (c :: rest) v2 r2 heq2
            split at h
            · simp at h
            next x3 c2 r3 heq3 =>
              by_cases h2 : c2 = ','
              · rw [if_pos h2] at h
                split at h
                next x4 vs2 r4 heq4 =>
                  simp only [Option.some.injEq, Prod.mk.injEq] at h
                  rw [← h.1]
                  simp only [wfL, Bool.and_eq_true]
                  exact ⟨hv2, ihe false r3 vs2 r4 heq4⟩
                next x4 heq4 => simp at h
              · rw [if_neg h2] at h
                by_cases h3 : c2 = ']'
                · rw [if_pos h3] at h
                  simp only [Option.some.injEq, Prod.mk.injEq] at h
                  rw [← h.1]
                  simp [wfL, hv2]
                · rw [if_neg h3] at h
                  simp at h
    · intro b acc cs v r h hnd hwf
      simp only [parseFields] at h
      split at h
      · simp at h
      next x c rest heq =>
        by_cases h1 : c = rbrace
        · rw [if_pos h1] at h
          split at h
          · simp only [Option.some.injEq, Prod.mk.injEq] at h
            rw [← h.1]
            simp [wfB, hnd, hwf]
          · simp at h
        · rw [if_neg h1] at h
          by_cases h2 : c = '"'
          · rw [if_pos h2] at h
            split at h
            · simp at h
            next x2 kcs r2 heq2 =>
              split at h
              · simp at h
              next x3 c2 r3 heq3 =>
                by_cases h3 : c2 = ':'
                · rw [if_pos h3] at h
                  split at h
                  · simp at h
                  next x4 v2 r4 heq4 =>
                    have hv2 : wfB v2 = true := ihv r3 v2 r4 heq4
                    have hnd2 : keysNodupB (upsert acc (String.mk kcs) v2) = true :=
                      keysNodupB_upsert (String.mk kcs) v2 acc hnd
                    have hwf2 : wfF (upsert acc (String.mk kcs) v2) = true :=
                      wfF_upsert (String.mk kcs) v2 hv2 acc hwf
                    split at h
                    · simp at h
                    next x5 c3 r5 heq5 =>
                      by_cases h4 : c3 = ','
                      · rw [if_pos h4] at h
                        exact ihf false (upsert acc (String.mk kcs) v2) r5 v r h hnd2 hwf2
                      · rw [if_neg h4] at h
                        by_cases h5 : c3 = rbrace
                        · rw [if_pos h5] at h
                          simp only [Option.some.injEq, Prod.mk.injEq] at h
                          rw [← h.1]
                          simp [wfB, hnd2, hwf2]
                        · rw [if_neg h5] at h
                          simp at h
                · rw [if_neg h3] at h
                  simp at h
          · rw [if_neg h2] at h
            simp at h

/-- Any value decoded from a JSON text is well-formed. -/
theorem jsonParse_wf (s : String) (v : Json) (h : jsonParse s = some v) : wfB v = true := by
  simp only [jsonParse] at h
  split at h
  next v2 rest heq =>
    by_cases hr : skipWs rest = []
    · simp only [if_pos hr, Option.some.injEq] at h
      rw [← h]
      exact (parseWf (s.data.length + 1)).1 s.data v2 rest heq
    · simp [if_neg hr] at h
  next heq => simp at h

/-- The pretty-printed rendering of any decoded value parses back to that
value. -/
theorem roundTrip_of_parse (s : String) (v : Json) (h : jsonParse s = some v) :
    jsonParse (stringifyPretty v) = some v :=
  jsonParse_stringifyPretty v (jsonParse_wf s v h)

/-! Program-level lemmas about the procedure map and the dispatcher. -/

/-- Substring containment of t in s. -/
def strContains (s t : String) : Prop := ∃ a b : String, s = a ++ t ++ b

theorem lookup_mem {β : Type} :
    ∀ (l : List (String × β)) (a : String) (b : β), l.lookup a = some b → (a, b) ∈ l := by
  intro l
  induction l with
  | nil =>
    intro a b h
    simp [List.lookup] at h
  | cons p t ih =>
    intro a b h
    obtain ⟨k, v⟩ := p
    cases hbeq : (a == k) with
    | true =>
      simp only [List.lookup, hbeq] at h
      have hak : a = k := eq_of_beq hbeq
      simp only [Option.some.injEq] at h
      subst hak
      rw [← h]
      exact List.mem_cons_self _ _
    | false =>
      simp only [List.lookup, hbeq] at h
      exact List.mem_cons_of_mem _ (ih a b h)

theorem lookup_ne_none_of_mem_keys {β : Type} :
    ∀ (l : List (String × β)) (a : String), a ∈ l.map Prod.fst → l.lookup a ≠ none := by
  intro l
  induction l with
  | nil =>
    intro a h
    simp at h
  | cons p t ih =>
    intro a h
    obtain ⟨k, v⟩ := p
    cases hbeq : (a == k) with
    | true => simp [List.lookup, hbeq]
    | false =>
      simp only [List.lookup, hbeq]
      have hak : a ≠ k := fun he => by
        rw [he] at hbeq
        simp at hbeq
      simp only [List.map_cons, List.mem_cons] at h
      rcases h with h | h
      · exact absurd h hak
      · exact ih a h

theorem lookup_eq_none_of_not_mem {β : Type} :
    ∀ (l : List (String × β)) (a : String), a ∉ l.map Prod.fst → l.lookup a = none := by
  intro l
  induction l with
  | nil =>
    intro a _
    rfl
  | cons p t ih =>
    intro a h
    obtain ⟨k, v⟩ := p
    simp only [List.map_cons, List.mem_cons] at h
    push_neg at h
    cases hbeq : (a == k) with
    | true => exact absurd (eq_of_beq hbeq) h.1
    | false =>
      simp only [List.lookup, hbeq]
      exact ih a h.2

/-- Every procedure in the mapping was built by one of the two
factories. -/
theorem procedures_origin :
    ∀ p ∈ procedures,
      (∃ ns name method desc ps, p.2 = createTrpcProcedure ns name method desc ps) ∨
      (∃ path method desc ps raw, p.2 = createRestProcedure path method desc ps raw) := by
  intro p hp
  rcases List.mem_append.mp (by simpa [procedures] using hp) with hp | hp
  · simp only [trpcProcList, List.mem_flatMap, List.mem_map] at hp
    obtain ⟨q, _, e, _, rfl⟩ := hp
    exact Or.inl ⟨q.1, e.name, e.method, e.description, e.params, rfl⟩
  · simp only [restProcList, List.mem_flatMap, List.mem_map] at hp
    obtain ⟨q, _, e, _, rfl⟩ := hp
    exact Or.inr ⟨dropApiTag (dropMethodTag e.name), e.method, e.description, e.params, e.raw, rfl⟩

theorem trpcExecute_fetchFail (ns nm : String) (m : HttpMethod) (env : JsEnv)
    (params : Json) (rr : Bool) (e0 : JsError) :
    trpcExecute ns nm m env (fun _ => .error e0) params rr =
      .error (mkError env
        ("tRPC execute error for procedure \"" ++ ns ++ "." ++ nm ++ "\": " ++ e0.message)) := rfl

theorem restExecute_fetchFail (path : String) (m : HttpMethod) (isRaw : Bool) (env : JsEnv)
    (params : Json) (e0 : JsError) :
    restExecute path m isRaw env (fun _ => .error e0) params =
      .error (mkError env
        ("REST execute error for endpoint \"" ++ path ++ "\": " ++ e0.message)) := rfl

theorem trpcExecute_parseFail (ns nm : String) (m : HttpMethod) (env : JsEnv)
    (st : Nat) (text : String) (params : Json)
    (hp : jsonParse text = none) (hrr : jsTruthyOpt (getReturnRaw params) = false) :
    trpcExecute ns nm m env (fun _ => .ok (st, text)) params false =
      .error (mkError env
        ("tRPC execute error for procedure \"" ++ ns ++ "." ++ nm ++ "\": " ++
          trpcParseFailMsg ns nm (trpcRequest ns nm m (omitReturnRaw params)).url st
            (env.parseErrMsg text) text)) := by
  simp [trpcExecute, hrr, hp, mkError]

theorem restExecute_parseFail (path : String) (m : HttpMethod) (env : JsEnv)
    (st : Nat) (text : String) (params : Json)
    (hp : jsonParse text = none) (hrr : jsTruthyOpt (getReturnRaw params) = false) :
    restExecute path m false env (fun _ => .ok (st, text)) params =
      .error (mkError env
        ("REST execute error for endpoint \"" ++ path ++ "\": " ++
          restParseFailMsg path (restRequest path m (omitReturnRaw params)).url st
            (env.parseErrMsg text) text)) := by
  simp [restExecute, hrr, hp, mkError]

theorem trpcExecute_parseOk (ns nm : String) (m : HttpMethod) (env : JsEnv)
    (st : Nat) (text : String) (params v : Json)
    (hp : jsonParse text = some v) (hrr : jsTruthyOpt (getReturnRaw params) = false) :
    trpcExecute ns nm m env (fun _ => .ok (st, text)) params false = .ok v := by
  simp [trpcExecute, hrr, hp]

theorem restExecute_parseOk (path : String) (m : HttpMethod) (env : JsEnv)
    (st : Nat) (text : String) (params v : Json)
    (hp : jsonParse text = some v) (hrr : jsTruthyOpt (getReturnRaw params) = false) :
    restExecute path m false env (fun _ => .ok (st, text)) params = .ok v := by
  simp [restExecute, hrr, hp]

theorem restExecute_rawFlag (path : String) (m : HttpMethod) (env : JsEnv)
    (st : Nat) (text : String) (params : Json) :
    restExecute path m true env (fun _ => .ok (st, text)) params =
      .ok (rawWrapper text st) := by
  simp [restExecute]

theorem execute_notFound (env : JsEnv) (fetch : Request → Except JsError (Nat × String))
    (k : String) (p : Option String) (h : findProcedure k = none)
    (h2 : objectProtoKeys.contains k = false) :
    execute env fetch k p =
      stringifyPretty (errorJson (mkError env ("Procedure " ++ k ++ " not found."))) := by
  have h2' : ¬k ∈ objectProtoKeys := by simpa using h2
  simp [execute, h, h2']

theorem execute_protoParamsErr (env : JsEnv)
    (fetch : Request → Except JsError (Nat × String)) (k : String) (p : Option String)
    (e : JsError) (h : findProcedure k = none)
    (h2 : objectProtoKeys.contains k = true) (h3 : dispatchParams env p = .error e) :
    execute env fetch k p = stringifyPretty (errorJson e) := by
  have h2' : k ∈ objectProtoKeys := by simpa using h2
  simp [execute, h, h2', h3]

theorem execute_protoTypeErr (env : JsEnv)
    (fetch : Request → Except JsError (Nat × String)) (k : String) (p : Option String)
    (v : Json) (h : findProcedure k = none)
    (h2 : objectProtoKeys.contains k = true) (h3 : dispatchParams env p = .ok v) :
    execute env fetch k p
      = stringifyPretty (errorJson (mkError env "procedure.execute is not a function")) := by
  have h2' : k ∈ objectProtoKeys := by simpa using h2
  simp [execute, h, h2', h3]

theorem execute_paramsErr (env : JsEnv) (fetch : Request → Except JsError (Nat × String))
    (k : String) (p : Option String) (proc : Procedure) (e : JsError)
    (h : findProcedure k = some proc) (h2 : dispatchParams env p = .error e) :
    execute env fetch k p = stringifyPretty (errorJson e) := by
  simp [execute, h, h2]

theorem execute_execErr (env : JsEnv) (fetch : Request → Except JsError (Nat × String))
    (k : String) (p : Option String) (proc : Procedure) (v : Json) (e : JsError)
    (h : findProcedure k = some proc) (h2 : dispatchParams env p = .ok v)
    (h3 : proc.execute env fetch v = .error e) :
    execute env fetch k p = stringifyPretty (errorJson e) := by
  simp [execute, h, h2, h3]

theorem execute_okResult (env : JsEnv) (fetch : Request → Except JsError (Nat × String))
    (k : String) (p : Option String) (proc : Procedure) (v result : Json)
    (h : findProcedure k = some proc) (h2 : dispatchParams env p = .ok v)
    (h3 : proc.execute env fetch v = .ok result) :
    execute env fetch k p = renderResult result := by
  simp [execute, h, h2, h3]

theorem dispatchParams_parseFail (env : JsEnv) (s : String) (h1 : ¬s = "")
    (h2 : jsonParse s = none) :
    dispatchParams env (some s) = .error (mkError env (env.parseErrMsg s)) := by
  simp [dispatchParams, h1, h2]

theorem dispatchParams_parseOk (env : JsEnv) (s : String) (v : Json) (h1 : ¬s = "")
    (h2 : jsonParse s = some v) :
    dispatchParams env (some s) = .ok v := by
  simp [dispatchParams, h1, h2]

theorem intToStr_ofNat (n : Nat) : intToStr (n : Int) = natToStr n := by
  have h : ¬((n : Int) < 0) := by omega
  simp only [intToStr, intChars, if_neg h, natToStr, Int.toNat_ofNat]

theorem renderResult_raw (text : String) (st : Nat) :
    renderResult (rawWrapper text st) = "Status: " ++ natToStr st ++ "\n\n" ++ text := by
  have h1 : jsGet (rawWrapper text st) "_raw" = some (.bool true) := rfl
  have h2 : jsGet (rawWrapper text st) "status" = some (.num (Int.ofNat st)) := rfl
  have h3 : jsGet (rawWrapper text st) "content" = some (.str text) := rfl
  have h4 : jsTruthy (rawWrapper text st) = true := rfl
  rw [renderResult, h1, h2, h3, h4]
  simp [jsTruthyOpt, jsTruthy, jsToStringU, jsToString, intToStr_ofNat]

/-! String-append facts, substitution lemmas and concrete fixtures used to
settle the specification claims. -/

theorem strAppend_assoc (a b c : String) : a ++ b ++ c = a ++ (b ++ c) := by
  obtain ⟨xa⟩ := a
  obtain ⟨xb⟩ := b
  obtain ⟨xc⟩ := c
  exact congrArg String.mk (List.append_assoc xa xb xc)

theorem strAppend_empty (s : String) : s ++ "" = s := by
  obtain ⟨x⟩ := s
  exact congrArg String.mk (List.append_nil x)

theorem strEmpty_append (s : String) : "" ++ s = s := by
  obtain ⟨x⟩ := s
  rfl

theorem strContains_end (x t : String) : strContains (x ++ t) t :=
  ⟨x, "", (strAppend_empty (x ++ t)).symm⟩

theorem strContains_append_left (s u t : String) (h : strContains s t) :
    strContains (s ++ u) t := by
  obtain ⟨a, b, h2⟩ := h
  refine ⟨a, b ++ u, ?_⟩
  rw [h2]
  simp only [strAppend_assoc]

theorem strContains_append_right (u s t : String) (h : strContains s t) :
    strContains (u ++ s) t := by
  obtain ⟨a, b, h2⟩ := h
  refine ⟨u ++ a, b, ?_⟩
  rw [h2]
  simp only [strAppend_assoc]

theorem strContains_mem (s t : String) (h : strContains s t) (c : Char)
    (hc : c ∈ t.data) : c ∈ s.data := by
  obtain ⟨a, b, he⟩ := h
  rw [he]
  obtain ⟨ad⟩ := a
  obtain ⟨td⟩ := t
  obtain ⟨bd⟩ := b
  show c ∈ ad ++ td ++ bd
  simp only [List.mem_append]
  exact Or.inl (Or.inr hc)

theorem expandRepl_noDollar (m pre post : List Char) :
    ∀ rep : List Char, '$' ∉ rep → expandRepl rep m pre post = rep := by
  intro rep
  induction rep with
  | nil =>
    intro _
    rfl
  | cons c rest ih =>
    intro h
    have hc : ¬c = '$' := by
      intro he
      exact h (by rw [he]; exact List.mem_cons_self _ _)
    have hrest : '$' ∉ rest := fun hm2 => h (List.mem_cons_of_mem _ hm2)
    rw [expandRepl.eq_def]
    split
    · rename_i heq
      simp at heq
    · rename_i d r2 heq
      simp only [List.cons.injEq] at heq
      exact absurd heq.1 hc
    · rename_i cx c2 hno h2
      simp only [List.cons.injEq] at h2
      rw [← h2.1, ← h2.2, ih hrest]

theorem isPrefixOf_append_self (l t : List Char) : l.isPrefixOf (l ++ t) = true := by
  induction l with
  | nil =>
    cases t with
    | nil => rfl
    | cons c cs => rfl
  | cons c cs ih => simp [List.isPrefixOf, ih]

theorem isPrefixOf_cons_append (p0 : Char) (l t : List Char) :
    (p0 :: l).isPrefixOf (p0 :: (l ++ t)) = true := by
  simp [List.isPrefixOf, isPrefixOf_append_self]

theorem splitFirst_append (p0 : Char) (prest : List Char) :
    ∀ (pre post : List Char), p0 ∉ pre →
      splitFirst (pre ++ p0 :: (prest ++ post)) (p0 :: prest) = some (pre, post) := by
  intro pre
  induction pre with
  | nil =>
    intro post _
    simp only [List.nil_append]
    rw [splitFirst.eq_def, if_pos (isPrefixOf_cons_append p0 prest post)]
    simp [List.drop_left]
  | cons c rest ih =>
    intro post h
    have hc : ¬p0 = c := by
      intro he
      exact h (by rw [he]; exact List.mem_cons_self _ _)
    have hrest : p0 ∉ rest := fun hm2 => h (List.mem_cons_of_mem _ hm2)
    have hne : (p0 == c) = false := beq_eq_false_iff_ne.mpr hc
    simp only [List.cons_append]
    rw [splitFirst.eq_def]
    rw [if_neg (by simp [List.isPrefixOf, hne])]
    split
    · rename_i heq2
      simp at heq2
    · rename_i cx cs heq2
      simp only [List.cons.injEq] at heq2
      rw [← heq2.2, ih post hrest]
      simp [heq2.1]

theorem replaceFirst_subst (pre post : List Char) (k rep : String)
    (hpre : '[' ∉ pre) (hrep : '$' ∉ rep.data) :
    replaceFirst (String.mk (pre ++ '[' :: (k.data ++ [']'] ++ post)))
        ("[" ++ k ++ "]") rep = String.mk (pre ++ rep.data ++ post) := by
  have hdata : ("[" ++ k ++ "]").data = '[' :: (k.data ++ [']']) := by
    obtain ⟨kd⟩ := k
    rfl
  simp only [replaceFirst, hdata]
  rw [splitFirst_append '[' (k.data ++ [']']) pre post hpre]
  simp [expandRepl_noDollar _ pre post rep.data hrep]

theorem restPathSubst_single (pre post : List Char) (k : String) (v : Json)
    (hpre : '[' ∉ pre) (hrep : '$' ∉ (jsToString v).data) :
    restPathSubst (String.mk (pre ++ '[' :: (k.data ++ [']'] ++ post)))
        (.obj [(k, v)]) = String.mk (pre ++ (jsToString v).data ++ post) := by
  simp only [restPathSubst, List.foldl_cons, List.foldl_nil]
  exact replaceFirst_subst pre post k (jsToString v) hpre hrep

theorem contains_true_of_mem (l : List String) (a : String) (h : a ∈ l) :
    l.contains a = true := by
  simpa using h

theorem mem_of_contains_true (l : List String) (a : String) (h : l.contains a = true) :
    a ∈ l := by
  simpa using h

/-- A fixed host environment for concrete runs: the stack is empty and the
JSON syntax-error text is a constant. -/
def envFx : JsEnv := ⟨fun _ => "", fun _ => "SyntaxError"⟩

/-- A fixed transport that always answers 200 with body null. -/
def fetchFx : Request → Except JsError (Nat × String) := fun _ => .ok (200, "null")

/-- Claim C1: every failure cause at the dispatcher boundary — unknown
procedure key (whether it fires the guard or reaches the TypeError of an
inherited Object.prototype member), parameters string that is not valid
JSON, transport failure, or remote response parse failure — is returned
as pretty-printed JSON of the structured error object, which carries the
boolean error flag, the message and the stack. -/
theorem claimC1 :
    (∀ (env : JsEnv) (fetch : Request → Except JsError (Nat × String))
       (k : String) (p : Option String), findProcedure k = none →
      objectProtoKeys.contains k = false →
      execute env fetch k p
        = stringifyPretty (errorJson (mkError env ("Procedure " ++ k ++ " not found.")))) ∧
    (∀ (env : JsEnv) (fetch : Request → Except JsError (Nat × String))
       (k : String) (p : Option String) (v : Json), findProcedure k = none →
      objectProtoKeys.contains k = true → dispatchParams env p = .ok v →
      execute env fetch k p
        = stringifyPretty (errorJson (mkError env "procedure.execute is not a function"))) ∧
    (∀ (env : JsEnv) (fetch : Request → Except JsError (Nat × String))
       (k s : String), ¬s = "" → jsonParse s = none →
      ∃ e : JsError, execute env fetch k (some s) = stringifyPretty (errorJson e)) ∧
    (∀ (env : JsEnv) (k : String) (p : Option String) (v : Json) (e0 : JsError),
      findProcedure k ≠ none → dispatchParams env p = .ok v →
      ∃ e : JsError, execute env (fun _ => .error e0) k p = stringifyPretty (errorJson e)) ∧
    (∀ (env : JsEnv) (k : String) (proc : Procedure) (st : Nat) (text : String),
      findProcedure k = some proc → proc.raw = false → jsonParse text = none →
      ∃ e : JsError,
        execute env (fun _ => .ok (st, text)) k none = stringifyPretty (errorJson e)) ∧
    (∀ e : JsError,
      jsGet (errorJson e) "error" = some (.bool true) ∧
      jsGet (errorJson e) "message" = some (.str e.message) ∧
      jsGet (errorJson e) "stack" = some (.str e.stack)) := by
  refine ⟨?_, ?_, ?_, ?_, ?_, ?_⟩
  · intro env fetch k p h hc
    exact execute_notFound env fetch k p h hc
  · intro env fetch k p v h hc hv
    exact execute_protoTypeErr env fetch k p v h hc hv
  · intro env fetch k s h1 h2
    cases hk : findProcedure k with
    | none =>
      cases hc : objectProtoKeys.contains k with
      | false =>
        exact ⟨mkError env ("Procedure " ++ k ++ " not found."),
          execute_notFound env fetch k (some s) hk hc⟩
      | true =>
        exact ⟨mkError env (env.parseErrMsg s),
          execute_protoParamsErr env fetch k (some s) (mkError env (env.parseErrMsg s)) hk hc
            (dispatchParams_parseFail env s h1 h2)⟩
    | some proc =>
      exact ⟨mkError env (env.parseErrMsg s),
        execute_paramsErr env fetch k (some s) proc (mkError env (env.parseErrMsg s)) hk
          (dispatchParams_parseFail env s h1 h2)⟩
  · intro env k p v e0 hk hp
    obtain ⟨proc, hproc⟩ := Option.ne_none_iff_exists'.mp hk
    have hmem := lookup_mem procedures k proc hproc
    rcases procedures_origin (k, proc) hmem with ⟨ns, nm, m, d, ps, hpe⟩ |
      ⟨path, m, d, ps, rawOpt, hpe⟩
    · have hexec : proc.execute env (fun _ => .error e0) v
          = .error (mkError env
              ("tRPC execute error for procedure \"" ++ ns ++ "." ++ nm ++ "\": "
                ++ e0.message)) := by
        rw [show proc = createTrpcProcedure ns nm m d ps from hpe]
        exact trpcExecute_fetchFail ns nm m env v false e0
      exact ⟨_, execute_execErr env (fun _ => .error e0) k p proc v _ hproc hp hexec⟩
    · have hexec : proc.execute env (fun _ => .error e0) v
          = .error (mkError env
              ("REST execute error for endpoint \"" ++ path ++ "\": " ++ e0.message)) := by
        rw [show proc = createRestProcedure path m d ps rawOpt from hpe]
        exact restExecute_fetchFail path m (decide (rawOpt = some true)) env v e0
      exact ⟨_, execute_execErr env (fun _ => .error e0) k p proc v _ hproc hp hexec⟩
  · intro env k proc st text hk hraw htext
    have hmem := lookup_mem procedures k proc hk
    rcases procedures_origin (k, proc) hmem with ⟨ns, nm, m, d, ps, hpe⟩ |
      ⟨path, m, d, ps, rawOpt, hpe⟩
    · have hexec : proc.execute env (fun _ => .ok (st, text)) (.obj [])
          = .error (mkError env
              ("tRPC execute error for procedure \"" ++ ns ++ "." ++ nm ++ "\": " ++
                trpcParseFailMsg ns nm (trpcRequest ns nm m (omitReturnRaw (.obj []))).url st
                  (env.parseErrMsg text) text)) := by
        rw [show proc = createTrpcProcedure ns nm m d ps from hpe]
        exact trpcExecute_parseFail ns nm m env st text (.obj []) htext rfl
      exact ⟨_, execute_execErr env (fun _ => .ok (st, text)) k none proc (.obj []) _
        hk rfl hexec⟩
    · have hb : decide (rawOpt = some true) = false := by
        rw [show proc = createRestProcedure path m d ps rawOpt from hpe] at hraw
        exact hraw
      have hexec : proc.execute env (fun _ => .ok (st, text)) (.obj [])
          = .error (mkError env
              ("REST execute error for endpoint \"" ++ path ++ "\": " ++
                restParseFailMsg path (restRequest path m (omitReturnRaw (.obj []))).url st
                  (env.parseErrMsg text) text)) := by
        rw [show proc = createRestProcedure path m d ps rawOpt from hpe]
        show restExecute path m (decide (rawOpt = some true)) env
          (fun _ => .ok (st, text)) (.obj []) = _
        rw [hb]
        exact restExecute_parseFail path m env st text (.obj []) htext rfl
      exact ⟨_, execute_execErr env (fun _ => .ok (st, text)) k none proc (.obj []) _
        hk rfl hexec⟩
  · intro e
    exact ⟨rfl, rfl, rfl⟩

set_option maxRecDepth 100000 in
/-- Claim C1 at concrete inputs: the failure causes, the inherited
toString member among them, each produce the pretty-printed structured
error object. -/
theorem claimC1_witness :
    execute envFx fetchFx "doesNotExist.op" none
      = stringifyPretty (errorJson (mkError envFx
          ("Procedure " ++ "doesNotExist.op" ++ " not found."))) ∧
    execute envFx fetchFx "toString" none
      = stringifyPretty (errorJson (mkError envFx
          "procedure.execute is not a function")) ∧
    (∃ e : JsError, execute envFx fetchFx "user.getAuthProviders" (some "\x7bnot json")
      = stringifyPretty (errorJson e)) ∧
    (∃ e : JsError, execute envFx (fun _ => .error ⟨"network down", ""⟩)
      "user.getAuthProviders" none = stringifyPretty (errorJson e)) ∧
    (∃ e : JsError, execute envFx (fun _ => .ok (500, "oops"))
      "user.getAuthProviders" none = stringifyPretty (errorJson e)) := by
  refine ⟨?_, ?_, ?_, ?_, ?_⟩
  · exact claimC1.1 envFx fetchFx "doesNotExist.op" none rfl (by decide)
  · exact claimC1.2.1 envFx fetchFx "toString" none (.obj []) rfl (by decide) rfl
  · exact claimC1.2.2.1 envFx fetchFx "user.getAuthProviders" "\x7bnot json"
      (by decide) rfl
  · refine claimC1.2.2.2.1 envFx "user.getAuthProviders" none (.obj [])
      ⟨"network down", ""⟩ ?_ rfl
    intro hnone
    rw [show findProcedure "user.getAuthProviders"
        = some (createTrpcProcedure "user" "getAuthProviders" .GET
            "Get user auth providers." none) from rfl] at hnone
    exact Option.noConfusion hnone
  · exact claimC1.2.2.2.2.1 envFx "user.getAuthProviders"
      (createTrpcProcedure "user" "getAuthProviders" .GET
        "Get user auth providers." none) 500 "oops" rfl rfl rfl

/-- Claim C2 counterexample: the code substitutes bracketed placeholders of
the form left-bracket name right-bracket, not brace-delimited ones; a path
template written with braces as the specification describes it is left
untouched and its key is not removed from the query parameters. -/
theorem claimC2_counterexample :
    (restRequest "/repositories/\x7bid\x7d" .GET
        (Json.obj [("id", Json.str "42"), ("verbose", Json.bool true)])).url
      = baseUrl ++ "/repositories/\x7bid\x7d?id=42&verbose=true" ∧
    (restRequest "/repositories/\x7bid\x7d" .GET
        (Json.obj [("id", Json.str "42"), ("verbose", Json.bool true)])).url
      ≠ baseUrl ++ "/repositories/42?verbose=true" := by
  constructor
  · rfl
  · decide

set_option maxRecDepth 100000 in
/-- Claim C2 amended: with bracketed placeholders, substitution puts the
converted value at the placeholder, placeholder keys are dropped from the
query pairs and the body object while other keys are kept, and the
bracketed form of the specification's example produces the claimed URL,
query string and body. -/
theorem claimC2 :
    (∀ (pre post : List Char) (k : String) (v : Json),
      '[' ∉ pre → '$' ∉ (jsToString v).data →
      restPathSubst (String.mk (pre ++ '[' :: (k.data ++ [']'] ++ post)))
          (.obj [(k, v)])
        = String.mk (pre ++ (jsToString v).data ++ post)) ∧
    (∀ (path : String) (fs : List (String × Json)) (k : String),
      k ∈ pathParams path →
        k ∉ (restQueryPairs path (.obj fs)).map Prod.fst ∧
        jsGet (restBodyParams path (.obj fs)) k = none) ∧
    (∀ (path : String) (fs : List (String × Json)) (k : String) (v : Json),
      k ∉ pathParams path → (k, v) ∈ fs →
        (k, jsToString v) ∈ restQueryPairs path (.obj fs) ∧
        ∃ fs', restBodyParams path (.obj fs) = .obj fs' ∧ (k, v) ∈ fs') ∧
    (restRequest "/repositories/[id]" .GET
        (Json.obj [("id", Json.str "42"), ("verbose", Json.bool true)])
      = ⟨baseUrl ++ "/repositories/42?verbose=true", .GET, none⟩) ∧
    (restRequest "/repositories/[id]" .POST
        (Json.obj [("id", Json.str "42"), ("verbose", Json.bool true)])
      = ⟨baseUrl ++ "/repositories/42", .POST,
          some (stringifyCompact (Json.obj [("verbose", Json.bool true)]))⟩) := by
  refine ⟨?_, ?_, ?_, rfl, rfl⟩
  · intro pre post k v hpre hrep
    exact restPathSubst_single pre post k v hpre hrep
  · intro path fs k h
    have hct := contains_true_of_mem (pathParams path) k h
    constructor
    · intro hmem
      simp only [restQueryPairs, List.map_map, List.mem_map, Function.comp] at hmem
      obtain ⟨kv, hkv, hk1⟩ := hmem
      have hfil := (List.mem_filter.mp hkv).2
      rw [hk1] at hfil
      rw [Bool.not_eq_true'] at hfil
      rw [hct] at hfil
      exact Bool.noConfusion hfil
    · simp only [restBodyParams, jsGet]
      apply lookup_eq_none_of_not_mem
      intro hmem
      simp only [List.mem_map] at hmem
      obtain ⟨kv, hkv, hk1⟩ := hmem
      have hfil := (List.mem_filter.mp hkv).2
      rw [hk1] at hfil
      rw [Bool.not_eq_true'] at hfil
      rw [hct] at hfil
      exact Bool.noConfusion hfil
  · intro path fs k v h hm
    constructor
    · simp only [restQueryPairs]
      refine List.mem_map.mpr ⟨(k, v), List.mem_filter.mpr ⟨hm, ?_⟩, rfl⟩
      simpa using h
    · refine ⟨_, rfl, List.mem_filter.mpr ⟨hm, ?_⟩⟩
      simpa using h

/-- Claim C2 amended at concrete inputs: a bracketed placeholder is
substituted, its key leaves the query pairs, and a non-placeholder key
stays. -/
theorem claimC2_witness :
    restPathSubst "/x/[id]" (Json.obj [("id", Json.str "9")]) = "/x/9" ∧
    "id" ∉ (restQueryPairs "/a/[id]"
      (Json.obj [("id", Json.str "1")])).map Prod.fst ∧
    ("q", jsToString (Json.str "1")) ∈
      restQueryPairs "/a/[id]" (Json.obj [("q", Json.str "1")]) := by
  refine ⟨?_, ?_, ?_⟩
  · exact claimC2.1 "/x/".data [] "id" (Json.str "9") (by decide) (by decide)
  · exact (claimC2.2.1 "/a/[id]" [("id", Json.str "1")] "id" (by decide)).1
  · exact (claimC2.2.2.1 "/a/[id]" [("q", Json.str "1")] "q" (Json.str "1")
      (by decide) (List.mem_cons_self _ _)).1

/-- Claim C3: a descriptor flagged raw always returns the raw wrapper
whatever the body, and the dispatcher renders any raw wrapper (also
through a full dispatch of a raw-flagged procedure) as the status-prefixed
text. -/
theorem claimC3 :
    (∀ (path : String) (m : HttpMethod) (d : String) (ps : Option String)
       (env : JsEnv) (st : Nat) (text : String) (params : Json),
      (createRestProcedure path m d ps (some true)).execute env
          (fun _ => .ok (st, text)) params
        = .ok (rawWrapper text st)) ∧
    (∀ (text : String) (st : Nat),
      renderResult (rawWrapper text st) = "Status: " ++ natToStr st ++ "\n\n" ++ text) ∧
    (∀ (env : JsEnv) (st : Nat) (text : String) (k : String) (proc : Procedure),
      findProcedure k = some proc → proc.raw = true →
      execute env (fun _ => .ok (st, text)) k none
        = "Status: " ++ natToStr st ++ "\n\n" ++ text) := by
  refine ⟨?_, ?_, ?_⟩
  · intro path m d ps env st text params
    exact restExecute_rawFlag path m env st text params
  · intro text st
    exact renderResult_raw text st
  · intro env st text k proc hk hraw
    have hmem := lookup_mem procedures k proc hk
    rcases procedures_origin (k, proc) hmem with ⟨ns, nm, m, d, ps, hpe⟩ |
      ⟨path, m, d, ps, rawOpt, hpe⟩
    · rw [show proc = createTrpcProcedure ns nm m d ps from hpe] at hraw
      simp [createTrpcProcedure] at hraw
    · have hb : decide (rawOpt = some true) = true := by
        rw [show proc = createRestProcedure path m d ps rawOpt from hpe] at hraw
        exact hraw
      have hexec : proc.execute env (fun _ => .ok (st, text)) (.obj [])
          = .ok (rawWrapper text st) := by
        rw [show proc = createRestProcedure path m d ps rawOpt from hpe]
        show restExecute path m (decide (rawOpt = some true)) env
          (fun _ => .ok (st, text)) (.obj []) = _
        rw [hb]
        exact restExecute_rawFlag path m env st text (.obj [])
      rw [execute_okResult env (fun _ => .ok (st, text)) k none proc (.obj [])
        (rawWrapper text st) hk rfl hexec]
      exact renderResult_raw text st

set_option maxRecDepth 100000 in
/-- Claim C3 at a concrete input: dispatching the raw marketplace skills
endpoint renders the unparsed body behind the status line. -/
theorem claimC3_witness :
    execute envFx (fun _ => .ok (200, "yaml: stuff")) "GET /api/marketplace/skills" none
      = "Status: " ++ natToStr 200 ++ "\n\n" ++ "yaml: stuff" :=
  claimC3.2.2 envFx 200 "yaml: stuff" "GET /api/marketplace/skills"
    (createRestProcedure "/marketplace/skills" .GET
      "List marketplace skills (returns YAML)." none (some true)) rfl rfl

set_option maxRecDepth 100000 in
/-- Claim C4 counterexample: the key toString is not declared in the
registry, yet dispatching it does not fail with the explicit not-found
message: the truthy member inherited from Object.prototype passes the
guard and the call of its absent execute member fails instead. -/
theorem claimC4_counterexample :
    "toString" ∉ procedureKeys ∧
    execute envFx fetchFx "toString" none
      ≠ stringifyPretty (errorJson (mkError envFx
          ("Procedure " ++ "toString" ++ " not found."))) := by
  constructor
  · decide
  · decide

set_option maxRecDepth 100000 in
/-- Claim C4 amended: every declared registry key resolves to a procedure,
the key list is duplicate-free so each key names exactly one descriptor,
and a key outside the registry has no own entry; dispatching such a key
fails with the explicit not-found error unless the key is inherited from
Object.prototype, in which case the truthiness guard passes and the
dispatch fails with the runtime TypeError instead of the not-found
condition. -/
theorem claimC4 :
    (∀ k : String, k ∈ procedureKeys → findProcedure k ≠ none) ∧
    procedureKeys.Nodup ∧
    (∀ k : String, k ∉ procedureKeys → findProcedure k = none) ∧
    (∀ (env : JsEnv) (fetch : Request → Except JsError (Nat × String))
       (k : String) (p : Option String),
      k ∉ procedureKeys → objectProtoKeys.contains k = false →
      execute env fetch k p
        = stringifyPretty (errorJson (mkError env ("Procedure " ++ k ++ " not found.")))) ∧
    (∀ (env : JsEnv) (fetch : Request → Except JsError (Nat × String)) (k : String),
      k ∉ procedureKeys → objectProtoKeys.contains k = true →
      execute env fetch k none
        = stringifyPretty (errorJson
            (mkError env "procedure.execute is not a function"))) := by
  refine ⟨?_, ?_, ?_, ?_, ?_⟩
  · intro k h
    exact lookup_ne_none_of_mem_keys procedures k h
  · decide
  · intro k h
    exact lookup_eq_none_of_not_mem procedures k h
  · intro env fetch k p h hc
    exact execute_notFound env fetch k p (lookup_eq_none_of_not_mem procedures k h) hc
  · intro env fetch k h hc
    exact execute_protoTypeErr env fetch k none (.obj [])
      (lookup_eq_none_of_not_mem procedures k h) hc rfl

set_option maxRecDepth 100000 in
/-- Claim C4 amended at concrete keys: a declared key resolves, an
undeclared key has no own entry and fails with the not-found error, and
the inherited toString key fails with the TypeError. -/
theorem claimC4_witness :
    findProcedure "user.getAuthProviders" ≠ none ∧
    findProcedure "doesNotExist.op" = none ∧
    execute envFx fetchFx "doesNotExist.op" none
      = stringifyPretty (errorJson (mkError envFx
          ("Procedure " ++ "doesNotExist.op" ++ " not found."))) ∧
    execute envFx fetchFx "toString" none
      = stringifyPretty (errorJson (mkError envFx
          "procedure.execute is not a function")) :=
  ⟨claimC4.1 "user.getAuthProviders" (by decide),
   claimC4.2.2.1 "doesNotExist.op" (by decide),
   claimC4.2.2.2.1 envFx fetchFx "doesNotExist.op" none (by decide) (by decide),
   claimC4.2.2.2.2 envFx fetchFx "toString" (by decide) (by decide)⟩

set_option maxRecDepth 100000 in
/-- Claim C5 counterexample: toString is not a declared key, yet the
error returned for it is the TypeError text, which does not contain the
key — the message that names an unresolved key is not produced here. -/
theorem claimC5_counterexample :
    "toString" ∉ procedureKeys ∧
    execute envFx fetchFx "toString" none
      = stringifyPretty (errorJson (mkError envFx
          "procedure.execute is not a function")) ∧
    ¬strContains "procedure.execute is not a function" "toString" := by
  refine ⟨by decide, rfl, ?_⟩
  intro hcon
  exact absurd (strContains_mem _ _ hcon 'S' (by decide)) (by decide)

/-- Claim C5 amended: dispatching a key outside the registry returns the
pretty-printed structured error and never an unhandled failure; the
message names the key whenever the key is not an inherited
Object.prototype member, while for an inherited member the error is the
runtime TypeError whose message does not mention the key. -/
theorem claimC5 (env : JsEnv) (fetch : Request → Except JsError (Nat × String))
    (k : String) (p : Option String) (h : k ∉ procedureKeys) :
    (objectProtoKeys.contains k = false →
      execute env fetch k p
        = stringifyPretty (errorJson (mkError env ("Procedure " ++ k ++ " not found."))) ∧
      strContains ("Procedure " ++ k ++ " not found.") k) ∧
    (∀ v : Json, objectProtoKeys.contains k = true → dispatchParams env p = .ok v →
      execute env fetch k p
        = stringifyPretty (errorJson
            (mkError env "procedure.execute is not a function"))) := by
  constructor
  · intro hc
    refine ⟨?_, "Procedure ", " not found.", rfl⟩
    exact execute_notFound env fetch k p (lookup_eq_none_of_not_mem procedures k h) hc
  · intro v hc hv
    exact execute_protoTypeErr env fetch k p v
      (lookup_eq_none_of_not_mem procedures k h) hc hv

set_option maxRecDepth 100000 in
/-- Claim C5 amended at concrete keys: an ordinary undeclared key and an
inherited member. -/
theorem claimC5_witness :
    (execute envFx fetchFx "doesNotExist.op" none
      = stringifyPretty (errorJson (mkError envFx
          ("Procedure " ++ "doesNotExist.op" ++ " not found."))) ∧
     strContains ("Procedure " ++ "doesNotExist.op" ++ " not found.") "doesNotExist.op") ∧
    execute envFx fetchFx "toString" none
      = stringifyPretty (errorJson (mkError envFx
          "procedure.execute is not a function")) :=
  ⟨(claimC5 envFx fetchFx "doesNotExist.op" none (by decide)).1 (by decide),
   (claimC5 envFx fetchFx "toString" none (by decide)).2 (.obj []) (by decide) rfl⟩

/-- Claim C6: a non-raw procedure whose response body is not valid JSON
fails with an error whose message carries the procedure identity, the
request URL, the HTTP status and the five-hundred-character-bounded body
prefix. -/
theorem claimC6 :
    (∀ (ns nm : String) (m : HttpMethod) (env : JsEnv) (st : Nat) (text : String)
       (params : Json),
      jsonParse text = none → jsTruthyOpt (getReturnRaw params) = false →
      ∃ e : JsError,
        trpcExecute ns nm m env (fun _ => .ok (st, text)) params false = .error e ∧
        strContains e.message (ns ++ "." ++ nm) ∧
        strContains e.message (trpcRequest ns nm m (omitReturnRaw params)).url ∧
        strContains e.message (natToStr st) ∧
        strContains e.message (first500 text) ∧
        (first500 text).data.length ≤ 500) ∧
    (∀ (path : String) (m : HttpMethod) (env : JsEnv) (st : Nat) (text : String)
       (params : Json),
      jsonParse text = none → jsTruthyOpt (getReturnRaw params) = false →
      ∃ e : JsError,
        restExecute path m false env (fun _ => .ok (st, text)) params = .error e ∧
        strContains e.message path ∧
        strContains e.message (restRequest path m (omitReturnRaw params)).url ∧
        strContains e.message (natToStr st) ∧
        strContains e.message (first500 text) ∧
        (first500 text).data.length ≤ 500) := by
  constructor
  · intro ns nm m env st text params hp hrr
    refine ⟨_, trpcExecute_parseFail ns nm m env st text params hp hrr,
      ?_, ?_, ?_, ?_, ?_⟩
    · show strContains
        ("tRPC execute error for procedure \"" ++ ns ++ "." ++ nm ++ "\": "
          ++ trpcParseFailMsg ns nm (trpcRequest ns nm m (omitReturnRaw params)).url st
            (env.parseErrMsg text) text) (ns ++ "." ++ nm)
      apply strContains_append_left
      apply strContains_append_left
      rw [show "tRPC execute error for procedure \"" ++ ns ++ "." ++ nm
          = "tRPC execute error for procedure \"" ++ (ns ++ "." ++ nm) from by
            simp only [strAppend_assoc]]
      exact strContains_end _ _
    · show strContains
        ("tRPC execute error for procedure \"" ++ ns ++ "." ++ nm ++ "\": "
          ++ trpcParseFailMsg ns nm (trpcRequest ns nm m (omitReturnRaw params)).url st
            (env.parseErrMsg text) text)
        (trpcRequest ns nm m (omitReturnRaw params)).url
      apply strContains_append_right
      show strContains
        ("Failed to parse JSON response. Procedure: " ++ ns ++ "." ++ nm
          ++ ", URL: " ++ (trpcRequest ns nm m (omitReturnRaw params)).url
          ++ ", Status: " ++ natToStr st ++ ", Error: " ++ env.parseErrMsg text
          ++ ", Response body (first 500 chars): " ++ first500 text) _
      apply strContains_append_left
      apply strContains_append_left
      apply strContains_append_left
      apply strContains_append_left
      apply strContains_append_left
      apply strContains_append_left
      exact strContains_end _ _
    · show strContains
        ("tRPC execute error for procedure \"" ++ ns ++ "." ++ nm ++ "\": "
          ++ trpcParseFailMsg ns nm (trpcRequest ns nm m (omitReturnRaw params)).url st
            (env.parseErrMsg text) text) (natToStr st)
      apply strContains_append_right
      show strContains
        ("Failed to parse JSON response. Procedure: " ++ ns ++ "." ++ nm
          ++ ", URL: " ++ (trpcRequest ns nm m (omitReturnRaw params)).url
          ++ ", Status: " ++ natToStr st ++ ", Error: " ++ env.parseErrMsg text
          ++ ", Response body (first 500 chars): " ++ first500 text) _
      apply strContains_append_left
      apply strContains_append_left
      apply strContains_append_left
      apply strContains_append_left
      exact strContains_end _ _
    · show strContains
        ("tRPC execute error for procedure \"" ++ ns ++ "." ++ nm ++ "\": "
          ++ trpcParseFailMsg ns nm (trpcRequest ns nm m (omitReturnRaw params)).url st
            (env.parseErrMsg text) text) (first500 text)
      apply strContains_append_right
      show strContains
        ("Failed to parse JSON response. Procedure: " ++ ns ++ "." ++ nm
          ++ ", URL: " ++ (trpcRequest ns nm m (omitReturnRaw params)).url
          ++ ", Status: " ++ natToStr st ++ ", Error: " ++ env.parseErrMsg text
          ++ ", Response body (first 500 chars): " ++ first500 text) _
      exact strContains_end _ _
    · simp [first500]
  · intro path m env st text params hp hrr
    refine ⟨_, restExecute_parseFail path m env st text params hp hrr,
      ?_, ?_, ?_, ?_, ?_⟩
    · show strContains
        ("REST execute error for endpoint \"" ++ path ++ "\": "
          ++ restParseFailMsg path (restRequest path m (omitReturnRaw params)).url st
            (env.parseErrMsg text) text) path
      apply strContains_append_left
      apply strContains_append_left
      exact strContains_end _ _
    · show strContains
        ("REST execute error for endpoint \"" ++ path ++ "\": "
          ++ restParseFailMsg path (restRequest path m (omitReturnRaw params)).url st
            (env.parseErrMsg text) text)
        (restRequest path m (omitReturnRaw params)).url
      apply strContains_append_right
      show strContains
        ("Failed to parse JSON response. Endpoint: " ++ path
          ++ ", URL: " ++ (restRequest path m (omitReturnRaw params)).url
          ++ ", Status: " ++ natToStr st ++ ", Error: " ++ env.parseErrMsg text
          ++ ", Response body (first 500 chars): " ++ first500 text) _
      apply strContains_append_left
      apply strContains_append_left
      apply strContains_append_left
      apply strContains_append_left
      apply strContains_append_left
      apply strContains_append_left
      exact strContains_end _ _
    · show strContains
        ("REST execute error for endpoint \"" ++ path ++ "\": "
          ++ restParseFailMsg path (restRequest path m (omitReturnRaw params)).url st
            (env.parseErrMsg text) text) (natToStr st)
      apply strContains_append_right
      show strContains
        ("Failed to parse JSON response. Endpoint: " ++ path
          ++ ", URL: " ++ (restRequest path m (omitReturnRaw params)).url
          ++ ", Status: " ++ natToStr st ++ ", Error: " ++ env.parseErrMsg text
          ++ ", Response body (first 500 chars): " ++ first500 text) _
      apply strContains_append_left
      apply strContains_append_left
      apply strContains_append_left
      apply strContains_append_left
      exact strContains_end _ _
    · show strContains
        ("REST execute error for endpoint \"" ++ path ++ "\": "
          ++ restParseFailMsg path (restRequest path m (omitReturnRaw params)).url st
            (env.parseErrMsg text) text) (first500 text)
      apply strContains_append_right
      show strContains
        ("Failed to parse JSON response. Endpoint: " ++ path
          ++ ", URL: " ++ (restRequest path m (omitReturnRaw params)).url
          ++ ", Status: " ++ natToStr st ++ ", Error: " ++ env.parseErrMsg text
          ++ ", Response body (first 500 chars): " ++ first500 text) _
      exact strContains_end _ _
    · simp [first500]

/-- Claim C6 at concrete inputs: one tRPC and one REST parse failure. -/
theorem claimC6_witness :
    (∃ e : JsError,
      trpcExecute "user" "getAuthProviders" .GET envFx (fun _ => .ok (500, "oops"))
          (.obj []) false = .error e ∧
      strContains e.message ("user" ++ "." ++ "getAuthProviders") ∧
      strContains e.message
        (trpcRequest "user" "getAuthProviders" .GET (omitReturnRaw (.obj []))).url ∧
      strContains e.message (natToStr 500) ∧
      strContains e.message (first500 "oops") ∧
      (first500 "oops").data.length ≤ 500) ∧
    (∃ e : JsError,
      restExecute "/profile" .GET false envFx (fun _ => .ok (404, "nope"))
          (.obj []) = .error e ∧
      strContains e.message "/profile" ∧
      strContains e.message (restRequest "/profile" .GET (omitReturnRaw (.obj []))).url ∧
      strContains e.message (natToStr 404) ∧
      strContains e.message (first500 "nope") ∧
      (first500 "nope").data.length ≤ 500) :=
  ⟨claimC6.1 "user" "getAuthProviders" .GET envFx 500 "oops" (.obj []) rfl rfl,
   claimC6.2 "/profile" .GET envFx 404 "nope" (.obj []) rfl rfl⟩

/-- Claim C7 counterexample: the tRPC request URL carries a trpc path
segment between the base URL and the namespace-dot-name id, so the
specification's base-slash-name address is not the one built. -/
theorem claimC7_counterexample :
    (trpcRequest "user" "getAuthProviders" .GET (Json.obj [])).url
      = baseUrl ++ "/trpc/" ++ "user" ++ "." ++ "getAuthProviders" ++ "?input="
        ++ encodeURIComponent (stringifyCompact (Json.obj [])) ∧
    (trpcRequest "user" "getAuthProviders" .GET (Json.obj [])).url
      ≠ baseUrl ++ "/" ++ "user" ++ "." ++ "getAuthProviders" ++ "?input="
        ++ encodeURIComponent (stringifyCompact (Json.obj [])) := by
  constructor
  · rfl
  · decide

/-- Claim C7 amended: a tRPC request addresses the base URL, a trpc
segment, then namespace-dot-name; GET carries the url-encoded JSON input
query parameter and no body, a mutating method carries the JSON body. -/
theorem claimC7 (ns nm : String) (m : HttpMethod) (p : Json) :
    (m = .GET →
      trpcRequest ns nm m p
        = ⟨baseUrl ++ "/trpc/" ++ ns ++ "." ++ nm ++ "?input="
            ++ encodeURIComponent (stringifyCompact p), m, none⟩) ∧
    (¬m = .GET →
      trpcRequest ns nm m p
        = ⟨baseUrl ++ "/trpc/" ++ ns ++ "." ++ nm, m, some (stringifyCompact p)⟩) := by
  constructor
  · intro h
    subst h
    rfl
  · intro h
    simp [trpcRequest, h]

/-- Claim C7 amended at concrete inputs: one GET and one POST request. -/
theorem claimC7_witness :
    trpcRequest "organizations" "list" .GET (Json.obj [])
      = ⟨baseUrl ++ "/trpc/" ++ "organizations" ++ "." ++ "list" ++ "?input="
          ++ encodeURIComponent (stringifyCompact (Json.obj [])), .GET, none⟩ ∧
    trpcRequest "webhookTriggers" "delete" .POST (Json.obj [])
      = ⟨baseUrl ++ "/trpc/" ++ "webhookTriggers" ++ "." ++ "delete", .POST,
          some (stringifyCompact (Json.obj []))⟩ :=
  ⟨(claimC7 "organizations" "list" .GET (Json.obj [])).1 rfl,
   (claimC7 "webhookTriggers" "delete" .POST (Json.obj [])).2 (by decide)⟩

set_option maxRecDepth 100000 in
/-- Claim C8 counterexample: a successful remote call whose valid-JSON body
has a truthy underscore-raw field is rendered as status-prefixed text, and
that rendering does not parse back to the decoded body. -/
theorem claimC8_counterexample :
    jsonParse "\x7b\"_raw\": true\x7d" = some (Json.obj [("_raw", Json.bool true)]) ∧
    execute envFx (fun _ => .ok (200, "\x7b\"_raw\": true\x7d"))
        "user.getAuthProviders" none
      = "Status: undefined\n\nundefined" ∧
    jsonParse "Status: undefined\n\nundefined" = none :=
  ⟨rfl, rfl, rfl⟩

/-- Claim C8 amended: for a non-raw procedure whose decoded body does not
carry a truthy underscore-raw field, the rendered output is the pretty
printing of the decoded body and parses back to it. -/
theorem claimC8 (env : JsEnv) (k : String) (proc : Procedure) (st : Nat)
    (text : String) (v : Json)
    (hk : findProcedure k = some proc) (hraw : proc.raw = false)
    (hp : jsonParse text = some v) (hnr : jsTruthyOpt (jsGet v "_raw") = false) :
    execute env (fun _ => .ok (st, text)) k none = stringifyPretty v ∧
    jsonParse (execute env (fun _ => .ok (st, text)) k none) = some v := by
  have hmem := lookup_mem procedures k proc hk
  have hex : proc.execute env (fun _ => .ok (st, text)) (.obj []) = .ok v := by
    rcases procedures_origin (k, proc) hmem with ⟨ns, nm, m, d, ps, hpe⟩ |
      ⟨path, m, d, ps, rawOpt, hpe⟩
    · rw [show proc = createTrpcProcedure ns nm m d ps from hpe]
      exact trpcExecute_parseOk ns nm m env st text (.obj []) v hp rfl
    · have hb : decide (rawOpt = some true) = false := by
        rw [show proc = createRestProcedure path m d ps rawOpt from hpe] at hraw
        exact hraw
      rw [show proc = createRestProcedure path m d ps rawOpt from hpe]
      show restExecute path m (decide (rawOpt = some true)) env
        (fun _ => .ok (st, text)) (.obj []) = _
      rw [hb]
      exact restExecute_parseOk path m env st text (.obj []) v hp rfl
  have hr : execute env (fun _ => .ok (st, text)) k none = renderResult v :=
    execute_okResult env (fun _ => .ok (st, text)) k none proc (.obj []) v hk rfl hex
  have hrr : renderResult v = stringifyPretty v := by
    simp [renderResult, hnr]
  exact ⟨by rw [hr, hrr], by rw [hr, hrr]; exact roundTrip_of_parse text v hp⟩

set_option maxRecDepth 100000 in
/-- Claim C8 amended at a concrete input: an ordinary JSON body round
trips through the dispatcher's rendering. -/
theorem claimC8_witness :
    execute envFx (fun _ => .ok (200, "\x7b\"a\": 1\x7d")) "user.getAuthProviders" none
      = stringifyPretty (Json.obj [("a", Json.num 1)]) ∧
    jsonParse (execute envFx (fun _ => .ok (200, "\x7b\"a\": 1\x7d"))
        "user.getAuthProviders" none)
      = some (Json.obj [("a", Json.num 1)]) :=
  claimC8 envFx "user.getAuthProviders"
    (createTrpcProcedure "user" "getAuthProviders" .GET
      "Get user auth providers." none)
    200 "\x7b\"a\": 1\x7d" (Json.obj [("a", Json.num 1)]) rfl rfl rfl rfl

/-- Claim C9: the destructuring removes the returnRaw key from an object
parameter while keeping every other key, and each executor consults the
transport only at the request built from the returnRaw-stripped
parameters, so the key reaches no URL, query string, body or path
segment. -/
theorem claimC9 :
    (∀ fs : List (String × Json), jsGet (omitReturnRaw (.obj fs)) "returnRaw" = none) ∧
    (∀ (fs : List (String × Json)) (k : String) (v : Json), ¬k = "returnRaw" →
      ((k, v) ∈ fs ↔ ∃ fs', omitReturnRaw (.obj fs) = .obj fs' ∧ (k, v) ∈ fs')) ∧
    (∀ (ns nm : String) (m : HttpMethod) (env : JsEnv) (params : Json) (rr : Bool)
       (f g : Request → Except JsError (Nat × String)),
      f (trpcRequest ns nm m (omitReturnRaw params))
          = g (trpcRequest ns nm m (omitReturnRaw params)) →
      trpcExecute ns nm m env f params rr = trpcExecute ns nm m env g params rr) ∧
    (∀ (path : String) (m : HttpMethod) (isRaw : Bool) (env : JsEnv) (params : Json)
       (f g : Request → Except JsError (Nat × String)),
      f (restRequest path m (omitReturnRaw params))
          = g (restRequest path m (omitReturnRaw params)) →
      restExecute path m isRaw env f params = restExecute path m isRaw env g params) := by
  refine ⟨?_, ?_, ?_, ?_⟩
  · intro fs
    simp only [omitReturnRaw, jsGet]
    apply lookup_eq_none_of_not_mem
    intro hmem
    simp only [List.mem_map] at hmem
    obtain ⟨kv, hkv, hk1⟩ := hmem
    have hfil := (List.mem_filter.mp hkv).2
    rw [hk1] at hfil
    exact (bne_iff_ne.mp hfil) rfl
  · intro fs k v hk
    constructor
    · intro hm
      refine ⟨_, rfl, List.mem_filter.mpr ⟨hm, ?_⟩⟩
      simpa [bne_iff_ne] using hk
    · rintro ⟨fs', heq, hm⟩
      simp only [omitReturnRaw, Json.obj.injEq] at heq
      rw [← heq] at hm
      exact (List.mem_filter.mp hm).1
  · intro ns nm m env params rr f g h
    simp only [trpcExecute]
    rw [h]
  · intro path m isRaw env params f g h
    simp only [restExecute]
    rw [h]

/-- Claim C9 at concrete inputs: key preservation and transport framing
at an object parameter and two transports agreeing on the built request. -/
theorem claimC9_witness :
    (("a", Json.num 1) ∈ ([("a", Json.num 1)] : List (String × Json)) ↔
      ∃ fs', omitReturnRaw (.obj [("a", Json.num 1)]) = .obj fs' ∧
        ("a", Json.num 1) ∈ fs') ∧
    trpcExecute "user" "getAuthProviders" .GET envFx (fun _ => .ok (200, "1"))
        (.obj []) false
      = trpcExecute "user" "getAuthProviders" .GET envFx
          (fun r => if r.method = .GET then .ok (200, "1") else .error ⟨"", ""⟩)
          (.obj []) false ∧
    restExecute "/profile" .GET false envFx (fun _ => .ok (200, "2")) (.obj [])
      = restExecute "/profile" .GET false envFx
          (fun r => if r.method = .GET then .ok (200, "2") else .error ⟨"", ""⟩)
          (.obj []) :=
  ⟨claimC9.2.1 [("a", Json.num 1)] "a" (Json.num 1) (by decide),
   claimC9.2.2.1 "user" "getAuthProviders" .GET envFx (.obj []) false _ _ rfl,
   claimC9.2.2.2 "/profile" .GET false envFx (.obj []) _ _ rfl⟩

/-- Claim C10: an empty params string dispatches exactly like an absent
one, both yielding the empty parameter object rather than a parse
error. -/
theorem claimC10 : ∀ (env : JsEnv) (fetch : Request → Except JsError (Nat × String))
    (k : String),
    execute env fetch k (some "") = execute env fetch k none ∧
    dispatchParams env (some "") = .ok (.obj []) ∧
    dispatchParams env none = .ok (.obj []) :=
  fun _ _ _ => ⟨rfl, rfl, rfl⟩

end KiloCloud
